import Mathlib

/-!
Verification of the booking/availability core of the fixit backend.

The Lean definitions below are a shallow embedding of the TypeScript
source under `src/`.  Instants are modelled at millisecond granularity in
a fixed-offset (UTC-like) timezone: a JavaScript `Date` is represented by
a Gregorian calendar record (flat month index since January 1970, a
1-based day of month and a millisecond-of-day), which carries exactly the
information that `getFullYear`/`getMonth`/`getDate`/`getHours`/
`getMinutes`/`getDay`/`getTime` read off a `Date` in a fixed timezone.
-/

namespace Fixit

/-- True when `y` is a Gregorian leap year, exactly the rule used by the
JavaScript `Date` object (proleptic Gregorian). -/
def isLeap (y : Int) : Bool :=
  (y % 4 == 0 && y % 100 != 0) || y % 400 == 0

/-- Number of days of month `m` (1..12) of year `y`. -/
def daysInMonthYM (y m : Int) : Int :=
  if m = 2 then (if isLeap y then 29 else 28)
  else if m = 4 ∨ m = 6 ∨ m = 9 ∨ m = 11 then 30
  else 31

/-- Year of the flat month index `mi` (months counted from January 1970). -/
def yearOfMi (mi : Int) : Int := 1970 + mi / 12

/-- Zero-based month-of-year of the flat month index (`getMonth` value). -/
def monthOfMi (mi : Int) : Int := mi % 12

/-- Days in the month with flat index `mi`. -/
def dim (mi : Int) : Int := daysInMonthYM (yearOfMi mi) (monthOfMi mi + 1)

/-- Day number (days since 1970-01-01) of the first day of month index
`n`, for `n ≥ 0`. -/
def monthStartNat : Nat → Int
  | 0 => 0
  | n + 1 => monthStartNat n + dim (Int.ofNat n)

/-- Auxiliary for negative month indices: `monthStartNegAux k` is the day
number of the first day of month index `-(k+1)`. -/
def monthStartNegAux : Nat → Int
  | 0 => -dim (-1)
  | k + 1 => monthStartNegAux k - dim (Int.negSucc (k + 1))

/-- Day number (days since 1970-01-01) of the first day of the month with
flat index `n`. -/
def monthStart : Int → Int
  | Int.ofNat n => monthStartNat n
  | Int.negSucc k => monthStartNegAux k

/-- A JavaScript `Date` in a fixed-offset timezone: flat month index `mi`
(months since January 1970), 1-based day of month `d`, and millisecond of
day. -/
structure CalDate where
  mi : Int
  d : Int
  msOfDay : Int
deriving DecidableEq, Repr

/-- Milliseconds per day. -/
def msPerDay : Int := 86400000

/-- Day number (days since 1970-01-01). -/
def toDay (c : CalDate) : Int := monthStart c.mi + (c.d - 1)

/-- Epoch milliseconds (`Date.getTime`). -/
def toMs (c : CalDate) : Int := toDay c * msPerDay + c.msOfDay

/-- The record denotes an actual calendar date and a time of day. -/
def Valid (c : CalDate) : Prop :=
  1 ≤ c.d ∧ c.d ≤ dim c.mi ∧ 0 ≤ c.msOfDay ∧ c.msOfDay < msPerDay

instance (c : CalDate) : Decidable (Valid c) := by unfold Valid; infer_instance

/-- JavaScript `Date.getDay`: 0 = Sunday .. 6 = Saturday (1970-01-01 was a Thursday). -/
def getDay (c : CalDate) : Int := (toDay c + 4) % 7

/-- JavaScript `Date.getHours` in the fixed timezone. -/
def getHours (c : CalDate) : Int := c.msOfDay / 3600000

/-- JavaScript `Date.getMinutes` in the fixed timezone. -/
def getMinutes (c : CalDate) : Int := c.msOfDay % 3600000 / 60000

/-- One day forward, `addDays(date, 1)` (the source's `addDays` via `setDate`), on a valid
calendar record. -/
def succDay (c : CalDate) : CalDate :=
  if c.d < dim c.mi then ⟨c.mi, c.d + 1, c.msOfDay⟩ else ⟨c.mi + 1, 1, c.msOfDay⟩

/-- Iterated `succDay` (so `addDays(date, n)` for `n ≥ 0`). -/
def succDayIter : Nat → CalDate → CalDate
  | 0, c => c
  | n + 1, c => succDayIter n (succDay c)

/-- The source's `addMonths` (`d.setMonth(d.getMonth() + months)`).
JavaScript `setMonth` keeps the day-of-month and lets it overflow past
the end of the target month into the following one (the overflow is at
most 3 days since every month has at least 28). -/
def addMonths (c : CalDate) (months : Int) : CalDate :=
  if c.d ≤ dim (c.mi + months) then ⟨c.mi + months, c.d, c.msOfDay⟩
  else ⟨c.mi + months + 1, c.d - dim (c.mi + months), c.msOfDay⟩

/-- JavaScript `aligned.setHours(h, m, 0, 0)`: set the time of day, zeroing seconds
and milliseconds. -/
def setHoursHM (c : CalDate) (hh mm : Int) : CalDate :=
  ⟨c.mi, c.d, hh * 3600000 + mm * 60000⟩

/-- JavaScript `new Date(y, m, 1, hh, mm, 0, 0)`: first day of the month `mi`. -/
def firstOfMonth (mi hh mm : Int) : CalDate := ⟨mi, 1, hh * 3600000 + mm * 60000⟩

/-- The `while (x.getDay() !== preferred) x = addDays(x, 1)` loop of the
source, with explicit fuel.  For a preferred weekday in 0..6 the loop
always terminates within 6 steps, so fuel 7 is exact. -/
def alignFuel : Nat → Int → CalDate → CalDate
  | 0, _, c => c
  | n + 1, w, c => if getDay c = w then c else alignFuel n w (succDay c)

/-- Weekday alignment of the series start (`first` in the source). -/
def alignStart (c : CalDate) : Option Int → CalDate
  | none => c
  | some w => alignFuel 7 w c

/-! ## Recurrence Projector

Shallow embedding of `computeOccurrenceDates` from
`src/pages/api/cron/generate-recurring-jobs.ts` (lines 70-127); the
function `computeOccurrences` in `src/unnamed/part_008`
(`pages/api/hold-provider.ts`, lines 176-221) is the same algorithm
line-for-line, so one embedding covers both call sites.  The upstream
parsing helpers guarantee `preferredDay` is either absent or a weekday
index in 0..6 (`weekdayIndexFromString`) and that the frequency has unit
week/month with `interval ≥ 1` (`parseFrequency`, which applies
`Math.max(1, ...)`); the embedding takes the parsed descriptor.  The
single source loop branches on the (per-run constant) frequency unit, so
it is embedded as one loop per unit. -/
inductive FreqUnit where
  | week
  | month
deriving DecidableEq, Repr

structure Freq where
  unit : FreqUnit
  interval : Int
deriving DecidableEq, Repr

/-- The source's `weekdayIndexFromString` (map lookup with `?? null`);
keys are already lowercased/trimmed strings. -/
def weekdayIndexOfKey (s : String) : Option Int :=
  if s = "sunday" ∨ s = "sun" then some 0
  else if s = "monday" ∨ s = "mon" then some 1
  else if s = "tuesday" ∨ s = "tue" then some 2
  else if s = "wednesday" ∨ s = "wed" then some 3
  else if s = "thursday" ∨ s = "thu" then some 4
  else if s = "friday" ∨ s = "fri" then some 5
  else if s = "saturday" ∨ s = "sat" then some 6
  else none

def weekdayIndexFromString (v : String) : Option Int :=
  weekdayIndexOfKey ⟨(((v.data.dropWhile Char.isWhitespace).reverse.dropWhile
    Char.isWhitespace).reverse).map Char.toLower⟩

/-- The `aligned` value of the monthly branch: either `moved` itself, or
(when a preferred weekday is set) the first matching weekday on/after the
1st of `moved`'s month. -/
def monthAligned (pref : Option Int) (moved : CalDate) : CalDate :=
  match pref with
  | some w => alignFuel 7 w (firstOfMonth moved.mi (getHours moved) (getMinutes moved))
  | none => moved

/-- One step of the monthly branch of the source loop: advance the
previous occurrence by `interval` months, realign to the first preferred
weekday of the target month when a preferred weekday is set, then reset
the time of day to the base start's hour and minute. -/
def monthStep (bh bm : Int) (pref : Option Int) (k : Int) (cur : CalDate) : CalDate :=
  setHoursHM (monthAligned pref (addMonths cur k)) bh bm

/-- Monthly-mode occurrence loop, emitting the full calendar state of
each occurrence. -/
def monthLoop (bh bm : Int) (pref : Option Int) (k : Int) : Nat → CalDate → List CalDate
  | 0, _ => []
  | n + 1, cur => cur :: monthLoop bh bm pref k n (monthStep bh bm pref k cur)

/-- Weekly-mode occurrence loop on epoch milliseconds
(`addDays(current, interval * 7)` is a pure shift of `interval*7` days). -/
def weekLoop (step : Int) : Nat → Int → List Int
  | 0, _ => []
  | n + 1, cur => cur :: weekLoop step n (cur + step)

/-- The projector `computeOccurrenceDates` / `computeOccurrences`: the projected
occurrence instants (epoch milliseconds). -/
def computeOccurrenceDates (startAt : CalDate) (pref : Option Int)
    (freq : Freq) (count : Nat) : List Int :=
  let first := alignStart startAt pref
  match freq.unit with
  | .week => weekLoop (freq.interval * 7 * msPerDay) count (toMs first)
  | .month =>
      (monthLoop (getHours startAt) (getMinutes startAt) pref freq.interval count first).map toMs

/-! ## Interval Model, Availability Checker and Hold Manager

Embedding of `providerHasOverlap` (identical in
`src/pages/api/match-providers.ts` lines 104-147 and `src/unnamed/part_008`
lines 105-143) and of the check-then-write core of the hold-provider
handler (`src/unnamed/part_008` lines 311-362).  A provider's `timeBlocks`
collection is a list of records; Firestore timestamps are epoch
milliseconds.  Server-assigned audit timestamps (`createdAt`,
`updatedAt`, `bookedAt`) are not modelled. -/
/-- A document of a provider's `timeBlocks` subcollection.  `id` is the
Firestore document id.  Optional fields model fields that may be absent
on a document. -/
structure TimeBlock where
  id : String
  status : String
  jobId : String
  clientId : String
  startAt : Option Int
  endAt : Option Int
  blockStartAt : Option Int
  blockEndAt : Option Int
  isRecurring : Bool
  occurrenceIndex : Option Int
  holdExpiresAt : Option Int
deriving DecidableEq, Repr

/-- A padded window (`blockStartAt`/`blockEndAt` pair). -/
structure PaddedWindow where
  paddedStart : Int
  paddedEnd : Int
deriving DecidableEq, Repr

/-- The in-code interval overlap test
(`blockStartAt < requestedBlockEnd && blockEndAt > requestedBlockStart`,
`match-providers.ts` lines 139-141). -/
def overlaps (a b : PaddedWindow) : Bool :=
  decide (a.paddedStart < b.paddedEnd) && decide (a.paddedEnd > b.paddedStart)

/-- The source's expired-hold test inside `providerHasOverlap`: a `held`
block whose `holdExpiresAt` exists and lies strictly before `now`. -/
def heldExpired (now : Int) (b : TimeBlock) : Bool :=
  b.status == "held" &&
    (match b.holdExpiresAt with
     | some t => decide (t < now)
     | none => false)

/-- Loop body of `providerHasOverlap`: whether one fetched block counts
as a conflict against the requested padded window. -/
def blockConflicts (now reqStart reqEnd : Int) (b : TimeBlock) : Bool :=
  if !(b.status == "held" || b.status == "booked") then false
  else
    match b.blockStartAt, b.blockEndAt with
    | some s, some e =>
        if heldExpired now b then false
        else decide (s < reqEnd) && decide (e > reqStart)
    | _, _ => false

/-- Availability check `providerHasOverlap`: the Firestore query keeps exactly the blocks
with `blockStartAt < requestedBlockEnd` (an inequality filter excludes
documents lacking the field; such documents are also skipped by the
in-loop presence check), then the loop body is applied to each. -/
def providerHasOverlap (blocks : List TimeBlock) (reqStart reqEnd now : Int) : Bool :=
  (blocks.filter (fun b =>
      match b.blockStartAt with
      | some s => decide (s < reqEnd)
      | none => false)).any
    (blockConflicts now reqStart reqEnd)

/-- A requested occurrence window of the hold-provider handler
(`requestedWindows` entry). -/
structure ReqWindow where
  occStart : Int
  endAt : Int
  blockStartAt : Int
  blockEndAt : Int
deriving DecidableEq, Repr

/-- The helper `addMinutes` and the window computation of the hold-provider handler
(lines 304-309): `endAt = occStart + totalDurationMins`, one hour of
padding on each side. -/
def mkReqWindow (totalDurationMins occStart : Int) : ReqWindow :=
  ⟨occStart, occStart + totalDurationMins * 60000,
    occStart - 3600000, occStart + totalDurationMins * 60000 + 3600000⟩

/-- The `held` TimeBlock written for the `i`-th requested window
(hold-provider lines 330-362); `holdExpiresAt = now + 10 minutes`. -/
def mkHold (jobId clientId : String) (isRecurring : Bool) (now : Int)
    (i : Nat) (w : ReqWindow) (newId : String) : TimeBlock :=
  { id := newId
    status := "held"
    jobId := jobId
    clientId := clientId
    startAt := some w.occStart
    endAt := some w.endAt
    blockStartAt := some w.blockStartAt
    blockEndAt := some w.blockEndAt
    isRecurring := isRecurring
    occurrenceIndex := some (i : Int)
    holdExpiresAt := some (now + 600000) }

inductive HoldOutcome where
  | conflict
  | ok (holds : List TimeBlock)
deriving DecidableEq, Repr

/-- Check-then-write core of the hold-provider handler: every occurrence
window is re-validated first (the loop returns 409 on the first
conflicting window, before any write), and only then are the holds
written one per window.  `newIds` supplies the fresh Firestore document
ids. -/
def holdProviderCore (blocks : List TimeBlock) (windows : List ReqWindow)
    (now : Int) (jobId clientId : String) (isRecurring : Bool)
    (newIds : Nat → String) : HoldOutcome × List TimeBlock :=
  if windows.any (fun w => providerHasOverlap blocks w.blockStartAt w.blockEndAt now)
  then (HoldOutcome.conflict, blocks)
  else
    (HoldOutcome.ok (windows.enum.map
        (fun p => mkHold jobId clientId isRecurring now p.1 p.2 (newIds p.1))),
      blocks ++ windows.enum.map
        (fun p => mkHold jobId clientId isRecurring now p.1 p.2 (newIds p.1)))

/-! ## Hold resolution and release

`finalizeOrReleaseHolds` from `src/unnamed/part_007`
(`pages/api/job-respond.ts`, lines 62-114), and the hold deletion of
`src/pages/api/cancel-hold.ts` (lines 55-79), identical to the one in the
client-rematch handler of `src/pages/api/match-providers.ts`
(`pages/api/recurring/client-rematch.ts` section, lines 577-602). -/
/-- JavaScript `String.prototype.trim`, modelled on the character list
(strip leading and trailing whitespace). -/
def trimChars (l : List Char) : List Char :=
  ((l.dropWhile Char.isWhitespace).reverse.dropWhile Char.isWhitespace).reverse

/-- JavaScript `asString(x).trim().toLowerCase()`, modelled at the character-list
level so that it evaluates in the kernel. -/
def normStatus (s : String) : String := ⟨(trimChars s.data).map Char.toLower⟩

inductive Decision where
  | accepted
  | declined
deriving DecidableEq, Repr

/-- Per-document action of `finalizeOrReleaseHolds`: `none` means the
batch deletes the document, `some b` the document's new contents.
Documents of other jobs are not in the query and stay untouched. -/
def finalizeStep (jobId : String) (decision : Decision) (now : Int)
    (b : TimeBlock) : Option TimeBlock :=
  if b.jobId != jobId then some b
  else if !(normStatus b.status == "held" || normStatus b.status == "booked") then some b
  else if normStatus b.status == "held" &&
      (match b.holdExpiresAt with
       | some t => decide (t < now)
       | none => false) then none
  else
    match decision with
    | .accepted => some { b with status := "booked" }
    | .declined => none

/-- The function `finalizeOrReleaseHolds(providerUid, jobId, decision)` applied to the
provider's timeBlocks list. -/
def finalizeOrReleaseHolds (blocks : List TimeBlock) (jobId : String)
    (decision : Decision) (now : Int) : List TimeBlock :=
  blocks.filterMap (finalizeStep jobId decision now)

/-- The hold deletion of the cancel-hold and client-rematch handlers:
when both a selected provider and a stored `holdId` exist, delete the
single timeBlock document with that id (and only that one). -/
def cancelHoldBlocks (blocks : List TimeBlock) (providerUid holdId : String) :
    List TimeBlock :=
  if providerUid != "" && holdId != "" then blocks.filter (fun b => b.id != holdId)
  else blocks

/-! ## Series Generator

Embedding of the per-root body of the generator loop in
`src/pages/api/cron/generate-recurring-jobs.ts` (lines 178-314).  The
`jobRequest` collection is a list of records carrying the fields the
generator reads or writes; fields it merely copies (tasks, pricing,
location, ...) and server timestamps are not modelled.  The recurrence
map is carried with `preferredDay` already coalesced
(`recurrence.preferredDay ?? recurrence.day`) and the frequency already
parsed (`parseFrequency` guarantees unit week/month and interval ≥ 1 and
defaults to one week); a root's `scheduledDate`/`recurrence.startAt`
instants are carried in calendar form because the projector reads them
through their calendar fields, while generated children only store their
occurrence instant. -/
/-- JavaScript `String.prototype.trim` (`asString` applies it). -/
def jsTrim (s : String) : String := ⟨trimChars s.data⟩

/-- Relevant fields of the root's `recurrence` map. -/
structure GRecurrence where
  startAt : Option CalDate
  preferredDay : Option String
  frequency : Freq
  horizonCount : Option Int
deriving DecidableEq, Repr

/-- A `jobRequest` document as seen by the generator. -/
structure GJob where
  id : String
  clientId : String
  category : String
  isRecurring : Bool
  isRecurringOccurrence : Bool
  requestType : String
  parentRecurringId : String
  status : String
  recurrenceSeriesId : Option String
  recurrenceIndex : Option Int
  scheduledStart : Option CalDate
  scheduledDateMs : Option Int
  recurrence : Option GRecurrence
  selectedProviderUid : String
  providerName : String
deriving DecidableEq, Repr

/-- JavaScript `root.recurrence` with an empty-map default: a missing map behaves as one with every
field missing (and the default `"1 week"` frequency). -/
def getRecurrence (j : GJob) : GRecurrence :=
  j.recurrence.getD ⟨none, none, ⟨FreqUnit.week, 1⟩, none⟩

/-- The root filter of the generator loop (lines 183-189): skip
occurrence/child documents. -/
def isOccurrenceDoc (j : GJob) : Bool :=
  j.isRecurringOccurrence || (normStatus j.requestType == "recurring_occurrence")
    || decide (0 < j.recurrenceIndex.getD 0) || (jsTrim j.parentRecurringId != "")

/-- JavaScript `recurrence.startAt ?? root.scheduledDate`. -/
def rootStartAt (j : GJob) : Option CalDate :=
  match (getRecurrence j).startAt with
  | some s => some s
  | none => j.scheduledStart

/-- JavaScript `asString(root.recurrenceSeriesId ?? rootId) || rootId`. -/
def deriveSeriesId (j : GJob) : String :=
  if jsTrim (j.recurrenceSeriesId.getD j.id) == "" then j.id
  else jsTrim (j.recurrenceSeriesId.getD j.id)

/-- The `recurrenceIndex` values (finite and ≥ 0) of the documents with
the given `recurrenceSeriesId` (lines 225-234);
`Number(d.recurrenceIndex ?? -1)`. -/
def existingIndices (store : List GJob) (seriesId : String) : List Int :=
  (store.filter (fun x => x.recurrenceSeriesId == some seriesId)).filterMap
    (fun x => if 0 ≤ x.recurrenceIndex.getD (-1) then some (x.recurrenceIndex.getD (-1)) else none)

/-- JavaScript `!root.recurrenceSeriesId || asString(root.recurrenceSeriesId) !== seriesId`. -/
def rootBackfillCond1 (j : GJob) (seriesId : String) : Bool :=
  (j.recurrenceSeriesId.getD "" == "") || (jsTrim (j.recurrenceSeriesId.getD "") != seriesId)

/-- Root linkage backfill (lines 237-254): set the series id and index 0,
or only index 0 when the series id already matches but the index is not
a finite number. -/
def backfillRoot (j : GJob) (seriesId : String) : GJob :=
  if rootBackfillCond1 j seriesId then
    { j with recurrenceSeriesId := some seriesId, recurrenceIndex := some 0 }
  else if j.recurrenceIndex.isNone then { j with recurrenceIndex := some 0 }
  else j

/-- The backfill write applied to the collection (the update targets the
root's document). -/
def updStore (store : List GJob) (rootId : String) (seriesId : String) : List GJob :=
  store.map (fun x => if x.id == rootId then backfillRoot x seriesId else x)

/-- The generated document for occurrence `idx` (lines 262-306): clone of
the root's copied fields with `recurrenceIndex = idx`, the projected
`scheduledDate`, and status `scheduled`. -/
def mkChild (j : GJob) (seriesId : String) (idx : Nat) (dateMs : Int)
    (newId : String) : GJob :=
  { id := newId
    clientId := j.clientId
    category := j.category
    isRecurring := true
    isRecurringOccurrence := false
    requestType := ""
    parentRecurringId := ""
    status := "scheduled"
    recurrenceSeriesId := some seriesId
    recurrenceIndex := some (idx : Int)
    scheduledStart := none
    scheduledDateMs := some dateMs
    recurrence := some (getRecurrence j)
    selectedProviderUid := j.selectedProviderUid
    providerName := j.providerName }

/-- The projected occurrence instants for a root: occurrence count is the
horizon clamped to [2,12] with default 6 (lines 209-219). -/
def rootDates (j : GJob) (startAt : CalDate) : List Int :=
  computeOccurrenceDates startAt
    ((getRecurrence j).preferredDay.bind weekdayIndexFromString)
    (getRecurrence j).frequency
    ((min (max ((getRecurrence j).horizonCount.getD 6) 2) 12).toNat)

/-- The documents created for the missing indices 1..count-1
(lines 256-309); `newIds` supplies the fresh document ids. -/
def createdChildren (store : List GJob) (j : GJob) (seriesId : String)
    (dates : List Int) (newIds : Nat → String) : List GJob :=
  (List.range dates.length).filterMap (fun (idx : Nat) =>
    if 1 ≤ idx ∧ ¬ (existingIndices store seriesId).contains (idx : Int) then
      some (mkChild j seriesId idx (dates.getD idx 0) (newIds idx))
    else none)

/-- The generator's per-root body: filters (occurrence doc, status in the
generate-eligible set `{accepted}`, a start instant must exist), then the
backfill write followed by creation of the missing occurrence documents.
The existing-index query runs before the backfill write, as in the
source. -/
def processRoot (store : List GJob) (j : GJob) (newIds : Nat → String) : List GJob :=
  if isOccurrenceDoc j then store
  else if !(normStatus j.status == "accepted") then store
  else
    match rootStartAt j with
    | none => store
    | some startAt =>
        updStore store j.id (deriveSeriesId j) ++
          createdChildren store j (deriveSeriesId j) (rootDates j startAt) newIds

/-- One generator run restricted to the series root with the given
document id. -/
def runGeneratorOn (store : List GJob) (rootId : String)
    (newIds : Nat → String) : List GJob :=
  match store.find? (fun x => x.id == rootId) with
  | none => store
  | some j => processRoot store j newIds

/-- The `(recurrenceSeriesId, recurrenceIndex)` pair of one document,
when it carries both fields. -/
def pairOf (x : GJob) : Option (String × Int) :=
  match x.recurrenceSeriesId, x.recurrenceIndex with
  | some s, some i => some (s, i)
  | _, _ => none

/-- The `(recurrenceSeriesId, recurrenceIndex)` pairs present in the
collection (documents carrying both fields). -/
def seriesPairs (store : List GJob) : List (String × Int) :=
  store.filterMap pairOf

/-! ## Reminder Scanner

Embedding of the per-document body of the scanner loop in
`src/pages/api/cron/recurring-reminders.ts` (lines 110-232).  Each
considered document yields the notifications sent and the updated
document. -/
/-- Whether `sub` occurs as a contiguous run at the head of `l`. -/
def startsWithChars : List Char → List Char → Bool
  | [], _ => true
  | _ :: _, [] => false
  | c :: cs, d :: ds => c == d && startsWithChars cs ds

/-- Whether `sub` occurs contiguously anywhere in the list. -/
def hasSubChars (sub : List Char) : List Char → Bool
  | [] => sub.isEmpty
  | d :: ds => startsWithChars sub (d :: ds) || hasSubChars sub ds

/-- JavaScript `String.prototype.includes`. -/
def strIncludes (s sub : String) : Bool := hasSubChars sub.data s.data

/-- A `jobRequest` document as seen by the reminder scanner. -/
structure RJob where
  id : String
  isRecurringRequest : Bool
  isRecurring : Bool
  requestType : String
  reminder48hSent : Bool
  reminder48hSkipReason : Option String
  status : String
  scheduledDate : Option Int
  recStartAt : Option Int
  clientId : String
  selectedProviderUid : String
deriving DecidableEq, Repr

/-- One push notification of the scanner (`sendToUserTopic`). -/
structure Reminder where
  userUid : String
  reminderType : String
deriving DecidableEq, Repr

/-- The scanner's recurring filter (lines 117-120). -/
def reminderIsRecurring (job : RJob) : Bool :=
  job.isRecurringRequest || job.isRecurring || (normStatus job.requestType == "recurring")

/-- The cancelled/terminated status filter (lines 135-143). -/
def cancelishStatus (status : String) : Bool :=
  strIncludes (normStatus status) "cancel" || strIncludes (normStatus status) "terminated"
    || strIncludes (normStatus status) "stopped"

/-- The first-occurrence marker write (lines 161-169). -/
def markSkipFirst (job : RJob) : RJob :=
  { job with
    reminder48hSent := true
    reminder48hSkipReason := some "first_job_of_recurrence" }

/-- The notify branch of the loop body (lines 173-231): require both user
ids, send one notification to each party, mark the document sent. -/
def reminderNotifyPath (job : RJob) : List Reminder × RJob :=
  if jsTrim job.clientId == "" || jsTrim job.selectedProviderUid == "" then ([], job)
  else
    ([⟨jsTrim job.clientId, "recurring_job_reminder_48h"⟩,
      ⟨jsTrim job.selectedProviderUid, "recurring_job_reminder_48h"⟩],
      { job with reminder48hSent := true })

/-- The scanner's per-document body. -/
def processReminder (job : RJob) : List Reminder × RJob :=
  if !(reminderIsRecurring job) then ([], job)
  else if job.reminder48hSent then ([], job)
  else if cancelishStatus job.status then ([], job)
  else
    match job.scheduledDate, job.recStartAt with
    | some sd, some st =>
        if sd == st then ([], markSkipFirst job) else reminderNotifyPath job
    | _, _ => reminderNotifyPath job

/-- The range query of the scanner: `scheduledDate` within ±15 minutes of
`now + 48h` (lines 85-101). -/
def inReminderWindow (now : Int) (job : RJob) : Bool :=
  match job.scheduledDate with
  | some sd =>
      decide (now + 48 * 3600000 - 15 * 60000 ≤ sd) &&
        decide (sd < now + 48 * 3600000 + 15 * 60000)
  | none => false

/-- Scenario E root: recurring weekly root with `horizonCount = 6`. -/
def genRoot0 : GJob :=
  { id := "r", clientId := "cl", category := "cleaning", isRecurring := true,
    isRecurringOccurrence := false, requestType := "", parentRecurringId := "",
    status := "accepted", recurrenceSeriesId := some "r", recurrenceIndex := some 0,
    scheduledStart := some ⟨0, 5, 0⟩, scheduledDateMs := none,
    recurrence := some ⟨none, none, ⟨FreqUnit.week, 1⟩, some 6⟩,
    selectedProviderUid := "p", providerName := "P" }

/-- Scenario E: a manually created occurrence with index 3 in the same
series. -/
def genManual0 : GJob :=
  { id := "m3", clientId := "cl", category := "cleaning", isRecurring := true,
    isRecurringOccurrence := false, requestType := "", parentRecurringId := "",
    status := "scheduled", recurrenceSeriesId := some "r", recurrenceIndex := some 3,
    scheduledStart := none, scheduledDateMs := some 1814400000,
    recurrence := some ⟨none, none, ⟨FreqUnit.week, 1⟩, some 6⟩,
    selectedProviderUid := "p", providerName := "P" }

def genStore0 : List GJob := [genRoot0, genManual0]

def genFresh0 : Nat → String := fun _ => "cx"

/-! ## Theorems -/

theorem dim_lb (mi : Int) : 28 ≤ dim mi := by
  unfold dim daysInMonthYM
  split
  · split <;> omega
  · split <;> omega

theorem dim_ub (mi : Int) : dim mi ≤ 31 := by
  unfold dim daysInMonthYM
  split
  · split <;> omega
  · split <;> omega

theorem monthStart_succ (n : Int) :
    monthStart (n + 1) = monthStart n + dim n := by
  cases n with
  | ofNat m =>
    show monthStart (Int.ofNat m + 1) = monthStartNat m + dim (Int.ofNat m)
    have h : Int.ofNat m + 1 = Int.ofNat (m + 1) := rfl
    rw [h]
    rfl
  | negSucc k =>
    cases k with
    | zero =>
      show monthStart (Int.negSucc 0 + 1) = monthStartNegAux 0 + dim (-1)
      have h : Int.negSucc 0 + 1 = Int.ofNat 0 := rfl
      rw [h]
      show (0 : Int) = -dim (-1) + dim (-1)
      ring
    | succ j =>
      show monthStart (Int.negSucc (j + 1) + 1)
          = monthStartNegAux j - dim (Int.negSucc (j + 1)) + dim (Int.negSucc (j + 1))
      have h : Int.negSucc (j + 1) + 1 = Int.negSucc j := by
        rw [Int.negSucc_eq, Int.negSucc_eq]
        push_cast
        ring
      rw [h]
      show monthStartNegAux j = monthStartNegAux j - dim (Int.negSucc (j + 1)) + dim (Int.negSucc (j + 1))
      ring

/-- The function `monthStart` grows by at least 28 days per month. -/
theorem monthStart_mono_add {a b : Int} (h : a ≤ b) :
    monthStart a + 28 * (b - a) ≤ monthStart b := by
  obtain ⟨n, hn⟩ : ∃ n : Nat, b = a + n := ⟨(b - a).toNat, by omega⟩
  subst hn
  induction n with
  | zero => simp
  | succ k ih =>
    have hk : a ≤ a + (k : Int) := by omega
    have := monthStart_succ (a + (k : Int))
    have hd := dim_lb (a + (k : Int))
    have ihk := ih hk
    have harith : a + (↑(k + 1) : Int) = (a + (k : Int)) + 1 := by push_cast; ring
    rw [harith]
    omega

theorem monthStart_lt {a b : Int} (h : a < b) : monthStart a < monthStart b := by
  have := monthStart_mono_add (le_of_lt h)
  omega

theorem succDay_valid {c : CalDate} (h : Valid c) : Valid (succDay c) := by
  obtain ⟨h1, h2, h3, h4⟩ := h
  unfold succDay Valid
  have := dim_lb (c.mi + 1)
  split <;> simp_all <;> omega

theorem toDay_succDay {c : CalDate} (h : Valid c) : toDay (succDay c) = toDay c + 1 := by
  obtain ⟨h1, h2, h3, h4⟩ := h
  have := monthStart_succ c.mi
  unfold succDay toDay
  split <;> simp <;> omega

theorem succDay_msOfDay (c : CalDate) : (succDay c).msOfDay = c.msOfDay := by
  unfold succDay; split <;> rfl

theorem succDayIter_valid {c : CalDate} (h : Valid c) (n : Nat) :
    Valid (succDayIter n c) := by
  induction n generalizing c with
  | zero => exact h
  | succ k ih => exact ih (succDay_valid h)

theorem toDay_succDayIter {c : CalDate} (h : Valid c) (n : Nat) :
    toDay (succDayIter n c) = toDay c + n := by
  induction n generalizing c with
  | zero => simp [succDayIter]
  | succ k ih =>
    show toDay (succDayIter k (succDay c)) = toDay c + (k + 1 : Nat)
    rw [ih (succDay_valid h), toDay_succDay h]
    push_cast
    ring

theorem getDay_succDayIter {c : CalDate} (h : Valid c) (n : Nat) :
    getDay (succDayIter n c) = (getDay c + n) % 7 := by
  unfold getDay
  rw [toDay_succDayIter h n]
  omega

/-- Within-month form of `succDayIter`: while the day stays in range the
month never changes. -/
theorem succDayIter_in_month {c : CalDate} (h : Valid c) (n : Nat)
    (hn : c.d + n ≤ dim c.mi) :
    succDayIter n c = ⟨c.mi, c.d + n, c.msOfDay⟩ := by
  induction n generalizing c with
  | zero => simp [succDayIter]
  | succ k ih =>
    obtain ⟨h1, h2, h3, h4⟩ := h
    have hk1 : (↑(k + 1) : Int) = (k : Int) + 1 := by push_cast; ring
    rw [hk1] at hn
    have hlt : c.d < dim c.mi := by omega
    have hsucc : succDay c = ⟨c.mi, c.d + 1, c.msOfDay⟩ := by
      unfold succDay; simp [hlt]
    have hv : Valid (⟨c.mi, c.d + 1, c.msOfDay⟩ : CalDate) :=
      ⟨by show (1 : Int) ≤ c.d + 1; omega, by show c.d + 1 ≤ dim c.mi; omega, h3, h4⟩
    show succDayIter k (succDay c) = _
    rw [hsucc, ih hv (by show c.d + 1 + (k : Int) ≤ dim c.mi; omega)]
    rw [hk1]
    congr 1
    ring

theorem addMonths_valid {c : CalDate} (h : Valid c) (k : Int) :
    Valid (addMonths c k) := by
  obtain ⟨h1, h2, h3, h4⟩ := h
  have hub := dim_ub c.mi
  have hlb := dim_lb (c.mi + k)
  have hlb2 := dim_lb (c.mi + k + 1)
  by_cases hc : c.d ≤ dim (c.mi + k) <;> simp [addMonths, Valid, hc] <;> omega

theorem addMonths_mi_ge {c : CalDate} (k : Int) :
    c.mi + k ≤ (addMonths c k).mi := by
  by_cases hc : c.d ≤ dim (c.mi + k) <;> simp [addMonths, hc] <;> omega

theorem addMonths_msOfDay (c : CalDate) (k : Int) :
    (addMonths c k).msOfDay = c.msOfDay := by
  by_cases hc : c.d ≤ dim (c.mi + k) <;> simp [addMonths, hc]

/-- Any two valid dates in distinct months are ordered as their months. -/
theorem toMs_lt_of_mi_lt {a b : CalDate} (ha : Valid a) (hb : Valid b)
    (h : a.mi < b.mi) : toMs a < toMs b := by
  obtain ⟨a1, a2, a3, a4⟩ := ha
  obtain ⟨b1, b2, b3, b4⟩ := hb
  have hstep := monthStart_succ a.mi
  have hmono := monthStart_mono_add (show a.mi + 1 ≤ b.mi by omega)
  have hD : msPerDay = 86400000 := rfl
  rw [hD] at a4 b4
  unfold toMs toDay
  rw [hD]
  omega

theorem weekdayIndexFromString_range {v : String} {w : Int}
    (h : weekdayIndexFromString v = some w) : 0 ≤ w ∧ w < 7 := by
  unfold weekdayIndexFromString weekdayIndexOfKey at h
  repeat' split at h
  all_goals first
    | (injection h with h; omega)
    | exact Option.noConfusion h

theorem valid_unfold {c : CalDate} (h : Valid c) :
    1 ≤ c.d ∧ c.d ≤ dim c.mi ∧ 0 ≤ c.msOfDay ∧ c.msOfDay < 86400000 := by
  have hD : msPerDay = 86400000 := rfl
  obtain ⟨h1, h2, h3, h4⟩ := h
  rw [hD] at h4
  exact ⟨h1, h2, h3, h4⟩

theorem getDay_bounds (c : CalDate) : 0 ≤ getDay c ∧ getDay c < 7 := by
  unfold getDay; omega

theorem getHours_bounds {c : CalDate} (h : Valid c) :
    0 ≤ getHours c ∧ getHours c < 24 := by
  obtain ⟨-, -, h3, h4⟩ := valid_unfold h
  unfold getHours; omega

theorem getMinutes_bounds {c : CalDate} (h : Valid c) :
    0 ≤ getMinutes c ∧ getMinutes c < 60 := by
  obtain ⟨-, -, h3, h4⟩ := valid_unfold h
  unfold getMinutes; omega

theorem setHoursHM_valid {c : CalDate} (h : Valid c) {hh mm : Int}
    (hhh : 0 ≤ hh ∧ hh < 24) (hmm : 0 ≤ mm ∧ mm < 60) :
    Valid (setHoursHM c hh mm) := by
  obtain ⟨h1, h2, -, -⟩ := h
  have hD : msPerDay = 86400000 := rfl
  exact ⟨h1, h2, by show 0 ≤ hh * 3600000 + mm * 60000; omega,
    by show hh * 3600000 + mm * 60000 < msPerDay; rw [hD]; omega⟩

theorem setHoursHM_mi (c : CalDate) (hh mm : Int) : (setHoursHM c hh mm).mi = c.mi := rfl

theorem firstOfMonth_valid {mi hh mm : Int} (hhh : 0 ≤ hh ∧ hh < 24)
    (hmm : 0 ≤ mm ∧ mm < 60) : Valid (firstOfMonth mi hh mm) := by
  have hdl := dim_lb mi
  have hD : msPerDay = 86400000 := rfl
  exact ⟨by show (1:Int) ≤ 1; omega, by show (1:Int) ≤ dim mi; omega,
    by show 0 ≤ hh * 3600000 + mm * 60000; omega,
    by show hh * 3600000 + mm * 60000 < msPerDay; rw [hD]; omega⟩

/-- The alignment loop, run with enough fuel, lands exactly
`(w - getDay c) mod 7` days after `c`. -/
theorem alignFuel_eq {c : CalDate} (h : Valid c) {w : Int}
    (hw : 0 ≤ w ∧ w < 7) :
    ∀ fuel : Nat, ((w - getDay c) % 7).toNat < fuel →
      alignFuel fuel w c = succDayIter ((w - getDay c) % 7).toNat c := by
  intro fuel
  induction fuel generalizing c with
  | zero => omega
  | succ f ih =>
    intro hf
    show (if getDay c = w then c else alignFuel f w (succDay c)) = _
    by_cases heq : getDay c = w
    · rw [if_pos heq]
      have : ((w - getDay c) % 7).toNat = 0 := by omega
      rw [this]
      rfl
    · rw [if_neg heq]
      have hg := getDay_bounds c
      have hδ : 1 ≤ (w - getDay c) % 7 := by omega
      have hg' : getDay (succDay c) = (getDay c + 1) % 7 := by
        have h1 := getDay_succDayIter h 1
        have : succDayIter 1 c = succDay c := rfl
        rw [this] at h1
        rw [h1]
        norm_num
      have hδ' : ((w - getDay (succDay c)) % 7) = (w - getDay c) % 7 - 1 := by
        rw [hg']
        omega
      have hnat : ((w - getDay c) % 7).toNat = ((w - getDay (succDay c)) % 7).toNat + 1 := by
        omega
      rw [ih (succDay_valid h) (by omega), hnat]
      rfl

theorem alignFuel_valid {c : CalDate} (h : Valid c) {w : Int}
    (hw : 0 ≤ w ∧ w < 7) : Valid (alignFuel 7 w c) := by
  rw [alignFuel_eq h hw 7 (by omega)]
  exact succDayIter_valid h _

theorem alignStart_valid {c : CalDate} (h : Valid c) {pref : Option Int}
    (hp : ∀ w, pref = some w → 0 ≤ w ∧ w < 7) : Valid (alignStart c pref) := by
  cases pref with
  | none => exact h
  | some w => exact alignFuel_valid h (hp w rfl)

theorem monthAligned_valid_mi {pref : Option Int}
    (hp : ∀ w, pref = some w → 0 ≤ w ∧ w < 7) {moved : CalDate}
    (h : Valid moved) :
    Valid (monthAligned pref moved) ∧ (monthAligned pref moved).mi = moved.mi := by
  cases pref with
  | none => exact ⟨h, rfl⟩
  | some w =>
    have hw := hp w rfl
    have hv1 : Valid (firstOfMonth moved.mi (getHours moved) (getMinutes moved)) :=
      firstOfMonth_valid (getHours_bounds h) (getMinutes_bounds h)
    have hδ : 0 ≤ (w - getDay (firstOfMonth moved.mi (getHours moved) (getMinutes moved))) % 7
        ∧ (w - getDay (firstOfMonth moved.mi (getHours moved) (getMinutes moved))) % 7 ≤ 6 := by
      omega
    show Valid (alignFuel 7 w _) ∧ (alignFuel 7 w _).mi = moved.mi
    rw [alignFuel_eq hv1 hw 7 (by omega),
      succDayIter_in_month hv1 _ (by
        have := dim_lb moved.mi
        show (firstOfMonth moved.mi (getHours moved) (getMinutes moved)).d + _ ≤ _
        show (1 : Int) + _ ≤ dim moved.mi
        omega)]
    refine ⟨⟨?_, ?_, ?_, ?_⟩, rfl⟩
    · show (1 : Int) ≤ 1 + _
      omega
    · show (1 : Int) + _ ≤ dim moved.mi
      have := dim_lb moved.mi
      omega
    · exact hv1.2.2.1
    · exact hv1.2.2.2

theorem monthStep_valid_mi {bh bm : Int} (hbh : 0 ≤ bh ∧ bh < 24)
    (hbm : 0 ≤ bm ∧ bm < 60) {pref : Option Int}
    (hp : ∀ w, pref = some w → 0 ≤ w ∧ w < 7) (k : Int) {cur : CalDate}
    (h : Valid cur) :
    Valid (monthStep bh bm pref k cur) ∧ cur.mi + k ≤ (monthStep bh bm pref k cur).mi := by
  obtain ⟨hva, hmi⟩ := monthAligned_valid_mi hp (addMonths_valid h k)
  refine ⟨setHoursHM_valid hva hbh hbm, ?_⟩
  show cur.mi + k ≤ (setHoursHM (monthAligned pref (addMonths cur k)) bh bm).mi
  rw [setHoursHM_mi, hmi]
  exact addMonths_mi_ge k

theorem monthStep_lt {bh bm : Int} (hbh : 0 ≤ bh ∧ bh < 24)
    (hbm : 0 ≤ bm ∧ bm < 60) {pref : Option Int}
    (hp : ∀ w, pref = some w → 0 ≤ w ∧ w < 7) {k : Int} (hk : 1 ≤ k)
    {cur : CalDate} (h : Valid cur) :
    toMs cur < toMs (monthStep bh bm pref k cur) := by
  obtain ⟨hv, hmi⟩ := monthStep_valid_mi hbh hbm hp k h
  exact toMs_lt_of_mi_lt h hv (by omega)

theorem monthLoop_length (bh bm : Int) (pref : Option Int) (k : Int)
    (n : Nat) : ∀ cur, (monthLoop bh bm pref k n cur).length = n := by
  induction n with
  | zero => intro cur; rfl
  | succ m ih =>
    intro cur
    show (cur :: monthLoop bh bm pref k m (monthStep bh bm pref k cur)).length = m + 1
    rw [List.length_cons, ih]

theorem monthLoop_chain {bh bm : Int} (hbh : 0 ≤ bh ∧ bh < 24)
    (hbm : 0 ≤ bm ∧ bm < 60) {pref : Option Int}
    (hp : ∀ w, pref = some w → 0 ≤ w ∧ w < 7) {k : Int} (hk : 1 ≤ k)
    (n : Nat) : ∀ cur, Valid cur →
      List.Chain' (· < ·) ((monthLoop bh bm pref k n cur).map toMs) := by
  induction n with
  | zero => intro cur _; exact List.chain'_nil
  | succ m ih =>
    intro cur hv
    show List.Chain' (· < ·)
      (toMs cur :: (monthLoop bh bm pref k m (monthStep bh bm pref k cur)).map toMs)
    rw [List.chain'_cons']
    refine ⟨?_, ih _ (monthStep_valid_mi hbh hbm hp k hv).1⟩
    intro y hy
    cases m with
    | zero => simp [monthLoop] at hy
    | succ m' =>
      have : ((monthLoop bh bm pref k (m' + 1) (monthStep bh bm pref k cur)).map toMs).head?
          = some (toMs (monthStep bh bm pref k cur)) := rfl
      rw [this] at hy
      cases hy
      exact monthStep_lt hbh hbm hp hk hv

theorem weekLoop_length (step : Int) (n : Nat) :
    ∀ cur, (weekLoop step n cur).length = n := by
  induction n with
  | zero => intro cur; rfl
  | succ m ih =>
    intro cur
    show (cur :: weekLoop step m (cur + step)).length = m + 1
    rw [List.length_cons, ih]

/-- The aligned series start is the start advanced day-by-day (never
backward) to the FIRST day whose weekday matches. -/
theorem alignStart_some_spec {c : CalDate} (h : Valid c) {w : Int}
    (hw : 0 ≤ w ∧ w < 7) :
    ∃ kk : Nat, kk < 7 ∧ alignStart c (some w) = succDayIter kk c ∧
      getDay (succDayIter kk c) = w ∧
      ∀ j : Nat, j < kk → getDay (succDayIter j c) ≠ w := by
  have hg := getDay_bounds c
  refine ⟨((w - getDay c) % 7).toNat, by omega, ?_, ?_, ?_⟩
  · exact alignFuel_eq h hw 7 (by omega)
  · rw [getDay_succDayIter h]
    omega
  · intro j hj
    rw [getDay_succDayIter h]
    omega

theorem weekLoop_chain {step : Int} (hstep : 0 < step) (n : Nat) :
    ∀ cur, List.Chain' (· < ·) (weekLoop step n cur) := by
  induction n with
  | zero => intro cur; exact List.chain'_nil
  | succ m ih =>
    intro cur
    show List.Chain' (· < ·) (cur :: weekLoop step m (cur + step))
    rw [List.chain'_cons']
    refine ⟨?_, ih _⟩
    intro y hy
    cases m with
    | zero => simp [weekLoop] at hy
    | succ m' =>
      have : (weekLoop step (m' + 1) (cur + step)).head? = some (cur + step) := rfl
      rw [this] at hy
      cases hy
      omega

/-- C4: for every recurrence descriptor (valid start instant, optional
preferred weekday in 0..6, unit week or month, interval ≥ 1), the
Recurrence Projector returns exactly `count` occurrence instants,
strictly increasing in time, whose occurrence 0 is the start instant
advanced day-by-day (never backward) to the first day matching the
preferred weekday, or the start instant itself when no preferred weekday
is given. -/
theorem claim_C4_projector (startAt : CalDate) (pref : Option Int)
    (freq : Freq) (count : Nat) (hstart : Valid startAt)
    (hpref : ∀ w, pref = some w → 0 ≤ w ∧ w < 7) (hint : 1 ≤ freq.interval) :
    (computeOccurrenceDates startAt pref freq count).length = count ∧
    List.Chain' (· < ·) (computeOccurrenceDates startAt pref freq count) ∧
    (0 < count → (computeOccurrenceDates startAt pref freq count).head?
        = some (toMs (alignStart startAt pref))) ∧
    (pref = none → alignStart startAt pref = startAt) ∧
    (∀ w, pref = some w → ∃ kk : Nat, kk < 7 ∧
        alignStart startAt pref = succDayIter kk startAt ∧
        getDay (succDayIter kk startAt) = w ∧
        ∀ j : Nat, j < kk → getDay (succDayIter j startAt) ≠ w) := by
  obtain ⟨u, k⟩ := freq
  have hfirst : Valid (alignStart startAt pref) := alignStart_valid hstart hpref
  refine ⟨?_, ?_, ?_, ?_, ?_⟩
  · cases u with
    | week => exact weekLoop_length _ _ _
    | month =>
      show ((monthLoop _ _ _ _ count _).map toMs).length = count
      rw [List.length_map, monthLoop_length]
  · cases u with
    | week =>
      refine weekLoop_chain ?_ _ _
      have hD : msPerDay = 86400000 := rfl
      show 0 < k * 7 * msPerDay
      rw [hD]
      have : 1 ≤ k := hint
      nlinarith
    | month =>
      exact monthLoop_chain (getHours_bounds hstart) (getMinutes_bounds hstart)
        hpref hint count _ hfirst
  · intro hc
    cases u with
    | week =>
      cases count with
      | zero => omega
      | succ m => rfl
    | month =>
      cases count with
      | zero => omega
      | succ m => rfl
  · intro hnone
    rw [hnone]
    rfl
  · intro w hw
    rw [hw]
    exact alignStart_some_spec hstart (hpref w hw)

theorem claim_C4_witness :
    Valid (⟨0, 5, 0⟩ : CalDate) ∧
    (1 : Int) ≤ (⟨FreqUnit.week, 1⟩ : Freq).interval ∧
    (computeOccurrenceDates ⟨0, 5, 0⟩ (some 3) ⟨FreqUnit.week, 1⟩ 3).length = 3 := by
  refine ⟨by decide, by decide, ?_⟩
  exact (claim_C4_projector ⟨0, 5, 0⟩ (some 3) ⟨FreqUnit.week, 1⟩ 3 (by decide)
    (by intro w hw; injection hw with hw; omega) (by decide)).1

/-- C3 (counterexample): for a start of Jan 31 1970 09:00 with unit
month and interval 1, the second projected occurrence is Mar 3 09:00 —
not Feb 28 09:00 and not Feb 29 09:00 — because JavaScript `setMonth`
overflows the day-of-month instead of clamping it. -/
theorem claim_C3_counterexample :
    (computeOccurrenceDates ⟨0, 31, 32400000⟩ none ⟨FreqUnit.month, 1⟩ 6).get? 1
      = some (toMs ⟨2, 3, 32400000⟩) ∧
    toMs (⟨2, 3, 32400000⟩ : CalDate) ≠ toMs ⟨1, 28, 32400000⟩ ∧
    toMs (⟨2, 3, 32400000⟩ : CalDate) ≠ toMs ⟨1, 29, 32400000⟩ := by
  refine ⟨?_, by decide, by decide⟩
  rfl

/-- C3 (amended): monthly recurrence with no preferred weekday keeps the
day-of-month when it exists in the target month; when the target month
is shorter the date overflows past the end of that month by the excess
days (JavaScript `setMonth` semantics) — the result is always a valid
calendar date, never an invalid one — so for a start of Jan 31 1970
09:00 with interval 1 the second occurrence is Mar 3 1970 09:00. -/
theorem claim_C3_amended :
    (∀ (c : CalDate) (k : Int), Valid c → Valid (addMonths c k)) ∧
    (∀ (c : CalDate) (k : Int), c.d ≤ dim (c.mi + k) →
        addMonths c k = ⟨c.mi + k, c.d, c.msOfDay⟩) ∧
    (∀ (c : CalDate) (k : Int), dim (c.mi + k) < c.d →
        addMonths c k = ⟨c.mi + k + 1, c.d - dim (c.mi + k), c.msOfDay⟩) ∧
    (computeOccurrenceDates ⟨0, 31, 32400000⟩ none ⟨FreqUnit.month, 1⟩ 6).get? 1
      = some (toMs ⟨2, 3, 32400000⟩) := by
  refine ⟨fun c k h => addMonths_valid h k, fun c k h => by simp [addMonths, h],
    fun c k h => by simp [addMonths, show ¬ c.d ≤ dim (c.mi + k) by omega], rfl⟩

theorem claim_C3_amended_witness :
    Valid (⟨0, 31, 32400000⟩ : CalDate) ∧ Valid (addMonths ⟨0, 31, 32400000⟩ 1) :=
  ⟨by decide, claim_C3_amended.1 ⟨0, 31, 32400000⟩ 1 (by decide)⟩

/-- C8: the interval overlap test returns true iff
`a.paddedStart < b.paddedEnd AND a.paddedEnd > b.paddedStart` (both
strict); it is symmetric, and touching windows do not conflict. -/
theorem claim_C8_overlaps (a b : PaddedWindow) :
    (overlaps a b = true ↔ a.paddedStart < b.paddedEnd ∧ a.paddedEnd > b.paddedStart) ∧
    overlaps a b = overlaps b a ∧
    (a.paddedEnd = b.paddedStart → overlaps a b = false) := by
  refine ⟨?_, ?_, ?_⟩
  · simp [overlaps]
  · exact Bool.eq_iff_iff.mpr (by simp [overlaps]; omega)
  · intro h
    simp [overlaps, h]

theorem claim_C8_witness :
    overlaps ⟨0, 10⟩ ⟨10, 20⟩ = false :=
  (claim_C8_overlaps ⟨0, 10⟩ ⟨10, 20⟩).2.2 rfl

theorem blockConflicts_expired {b : TimeBlock} {now : Int} (hs : b.status = "held")
    {t : Int} (ht : b.holdExpiresAt = some t) (hlt : t < now) (reqStart reqEnd : Int) :
    blockConflicts now reqStart reqEnd b = false := by
  unfold blockConflicts heldExpired
  rw [hs, ht]
  cases hb1 : b.blockStartAt <;> cases hb2 : b.blockEndAt <;> simp [hlt]

/-- C5: a `held` TimeBlock whose `holdExpiresAt` lies strictly before
the current time is ignored by the availability check — removing it (or
inserting it anywhere) never changes the check's result. -/
theorem claim_C5_expired_holds (l1 l2 : List TimeBlock) (b : TimeBlock)
    (reqStart reqEnd now : Int) (hs : b.status = "held")
    (t : Int) (ht : b.holdExpiresAt = some t) (hlt : t < now) :
    providerHasOverlap (l1 ++ b :: l2) reqStart reqEnd now
      = providerHasOverlap (l1 ++ l2) reqStart reqEnd now := by
  have hb := blockConflicts_expired hs ht hlt reqStart reqEnd
  unfold providerHasOverlap
  rw [List.filter_append, List.filter_append, List.filter_cons]
  split
  · rw [List.any_append, List.any_append, List.any_cons, hb]
    simp
  · rfl

theorem claim_C5_witness :
    providerHasOverlap
        [⟨"h1", "held", "j", "c", some 0, some 10, some 0, some 10, false, some 0, some 50⟩]
        0 10 100
      = providerHasOverlap [] 0 10 100 :=
  claim_C5_expired_holds [] []
    ⟨"h1", "held", "j", "c", some 0, some 10, some 0, some 10, false, some 0, some 50⟩
    0 10 100 rfl 50 rfl (by omega)

/-- C10 (implicit): a `held` TimeBlock with no `holdExpiresAt` field
never expires — whenever it overlaps the requested padded window the
availability check reports a conflict, whatever the current time. -/
theorem claim_C10_hold_without_expiry (blocks : List TimeBlock) (b : TimeBlock)
    (hmem : b ∈ blocks) (hs : b.status = "held") (hexp : b.holdExpiresAt = none)
    {s e : Int} (hbs : b.blockStartAt = some s) (hbe : b.blockEndAt = some e)
    (reqStart reqEnd now : Int) (h1 : s < reqEnd) (h2 : e > reqStart) :
    providerHasOverlap blocks reqStart reqEnd now = true := by
  unfold providerHasOverlap
  rw [List.any_eq_true]
  refine ⟨b, List.mem_filter.mpr ⟨hmem, by rw [hbs]; simpa using h1⟩, ?_⟩
  unfold blockConflicts heldExpired
  rw [hs, hbs, hbe, hexp]
  simp [h1, h2]

theorem claim_C10_witness :
    providerHasOverlap
        [⟨"h1", "held", "j", "c", some 0, some 10, some 0, some 10, false, some 0, none⟩]
        0 10 99999999 = true :=
  claim_C10_hold_without_expiry _
    ⟨"h1", "held", "j", "c", some 0, some 10, some 0, some 10, false, some 0, none⟩
    (List.mem_singleton.mpr rfl) rfl rfl rfl rfl 0 10 99999999 (by omega) (by omega)

theorem mkHold_forall2 (jobId clientId : String) (isRec : Bool) (now : Int)
    (newIds : Nat → String) :
    ∀ (ws : List ReqWindow) (n0 : Nat),
      List.Forall₂ (fun (w : ReqWindow) (h : TimeBlock) =>
          h.status = "held" ∧ h.jobId = jobId ∧ h.startAt = some w.occStart ∧
          h.endAt = some w.endAt ∧ h.blockStartAt = some w.blockStartAt ∧
          h.blockEndAt = some w.blockEndAt ∧ h.holdExpiresAt = some (now + 600000))
        ws ((List.enumFrom n0 ws).map
          (fun p => mkHold jobId clientId isRec now p.1 p.2 (newIds p.1))) := by
  intro ws
  induction ws with
  | nil => intro n0; exact List.Forall₂.nil
  | cons w ws' ih =>
    intro n0
    exact List.Forall₂.cons ⟨rfl, rfl, rfl, rfl, rfl, rfl, rfl⟩ (ih (n0 + 1))

/-- C1: the hold-provider handler validates every occurrence window
before writing anything: if any window conflicts it returns a Conflict
outcome and the provider's timeBlocks collection is unchanged; otherwise
it appends exactly one fresh `held` TimeBlock per occurrence window,
carrying that window's fields and a 10-minute expiry. -/
theorem claim_C1_createHolds (blocks : List TimeBlock) (windows : List ReqWindow)
    (now : Int) (jobId clientId : String) (isRec : Bool) (newIds : Nat → String) :
    ((∃ w ∈ windows, providerHasOverlap blocks w.blockStartAt w.blockEndAt now = true) →
      holdProviderCore blocks windows now jobId clientId isRec newIds
        = (HoldOutcome.conflict, blocks)) ∧
    ((∀ w ∈ windows, providerHasOverlap blocks w.blockStartAt w.blockEndAt now = false) →
      ∃ holds, holdProviderCore blocks windows now jobId clientId isRec newIds
          = (HoldOutcome.ok holds, blocks ++ holds) ∧
        holds.length = windows.length ∧
        List.Forall₂ (fun (w : ReqWindow) (h : TimeBlock) =>
            h.status = "held" ∧ h.jobId = jobId ∧ h.startAt = some w.occStart ∧
            h.endAt = some w.endAt ∧ h.blockStartAt = some w.blockStartAt ∧
            h.blockEndAt = some w.blockEndAt ∧ h.holdExpiresAt = some (now + 600000))
          windows holds) := by
  constructor
  · intro hex
    unfold holdProviderCore
    rw [if_pos (List.any_eq_true.mpr (by
      obtain ⟨w, hw, hov⟩ := hex
      exact ⟨w, hw, hov⟩))]
  · intro hall
    unfold holdProviderCore
    rw [if_neg (by
      intro hany
      obtain ⟨w, hw, hov⟩ := List.any_eq_true.mp hany
      rw [hall w hw] at hov
      cases hov)]
    refine ⟨_, rfl, ?_, ?_⟩
    · rw [List.length_map]
      show (List.enumFrom 0 windows).length = windows.length
      rw [List.enumFrom_length]
    · exact mkHold_forall2 jobId clientId isRec now newIds windows 0

theorem claim_C1_witness :
    holdProviderCore
        [⟨"b1", "booked", "j0", "c0", some 0, some 10, some 0, some 10, false, none, none⟩]
        [⟨5, 8, 4, 9⟩] 0 "j" "c" false (fun _ => "t1")
      = (HoldOutcome.conflict,
        [⟨"b1", "booked", "j0", "c0", some 0, some 10, some 0, some 10, false, none, none⟩]) :=
  (claim_C1_createHolds _ [⟨5, 8, 4, 9⟩] 0 "j" "c" false (fun _ => "t1")).1
    ⟨⟨5, 8, 4, 9⟩, by decide, by decide⟩

/-- C6 (counterexample): on decision `accepted`, a `held` TimeBlock whose
hold has already expired is DELETED, not converted to `booked` — so "every
held TimeBlock is converted to booked" fails. -/
theorem claim_C6_counterexample :
    finalizeOrReleaseHolds
        [⟨"h1", "held", "j", "c", some 0, some 10, some 0, some 10, false, some 0, some 50⟩]
        "j" Decision.accepted 100 = [] ∧
    ({(⟨"h1", "held", "j", "c", some 0, some 10, some 0, some 10, false, some 0, some 50⟩ : TimeBlock)
        with status := "booked"} ∉
      finalizeOrReleaseHolds
        [⟨"h1", "held", "j", "c", some 0, some 10, some 0, some 10, false, some 0, some 50⟩]
        "j" Decision.accepted 100) := by
  decide

/-- C6 (amended): on `accepted`, every `held` TimeBlock of the engagement
whose hold has NOT yet expired is converted to status `booked` with all
window fields unchanged, while an expired `held` block is deleted; on
`declined`, no `held` or `booked` TimeBlock of the engagement survives. -/
theorem claim_C6_amended (blocks : List TimeBlock) (jobId : String) (now : Int) :
    (∀ b ∈ blocks, b.jobId = jobId → normStatus b.status = "held" →
      (∀ t, b.holdExpiresAt = some t → ¬ t < now) →
      { b with status := "booked" } ∈ finalizeOrReleaseHolds blocks jobId Decision.accepted now) ∧
    (∀ b' ∈ finalizeOrReleaseHolds blocks jobId Decision.declined now,
      b'.jobId = jobId →
      normStatus b'.status ≠ "held" ∧ normStatus b'.status ≠ "booked") := by
  constructor
  · intro b hmem hjob hst hexp
    refine List.mem_filterMap.mpr ⟨b, hmem, ?_⟩
    unfold finalizeStep
    rw [hjob, hst]
    have hne : (jobId != jobId) = false := by simp
    rw [hne]
    have hexp2 : (match b.holdExpiresAt with
        | some t => decide (t < now)
        | none => false) = false := by
      cases hb : b.holdExpiresAt with
      | none => rfl
      | some t => simpa using hexp t hb
    rw [hexp2]
    simp
  · intro b' hmem hjob
    obtain ⟨a, hamem, ha⟩ := List.mem_filterMap.mp hmem
    unfold finalizeStep at ha
    by_cases h1 : (a.jobId != jobId) = true
    · rw [if_pos h1] at ha
      cases ha
      simp at h1
      exact absurd hjob h1
    · rw [if_neg h1] at ha
      by_cases h2 : (!(normStatus a.status == "held" || normStatus a.status == "booked")) = true
      · rw [if_pos h2] at ha
        cases ha
        simp at h2
        exact ⟨h2.1, h2.2⟩
      · rw [if_neg h2] at ha
        by_cases h3 : (normStatus a.status == "held" &&
            (match a.holdExpiresAt with
             | some t => decide (t < now)
             | none => false)) = true
        · rw [if_pos h3] at ha
          cases ha
        · rw [if_neg h3] at ha
          cases ha

theorem claim_C6_witness :
    { (⟨"h1", "held", "j", "c", some 0, some 10, some 0, some 10, false, some 0, some 500⟩ : TimeBlock)
        with status := "booked" } ∈
      finalizeOrReleaseHolds
        [⟨"h1", "held", "j", "c", some 0, some 10, some 0, some 10, false, some 0, some 500⟩]
        "j" Decision.accepted 100 :=
  (claim_C6_amended _ "j" 100).1
    ⟨"h1", "held", "j", "c", some 0, some 10, some 0, some 10, false, some 0, some 500⟩
    (List.mem_singleton.mpr rfl) rfl (by decide) (by intro t ht; injection ht with ht; omega)

/-- C7 (counterexample): cancelling a recurring engagement that holds two
occurrence TimeBlocks deletes only the block whose id equals the stored
`holdId`; the second block with the engagement's jobId remains. -/
theorem claim_C7_counterexample :
    cancelHoldBlocks
        [⟨"h1", "held", "j", "c", some 0, some 10, some 0, some 10, true, some 0, some 500⟩,
         ⟨"h2", "held", "j", "c", some 20, some 30, some 20, some 30, true, some 1, some 500⟩]
        "p" "h1"
      = [⟨"h2", "held", "j", "c", some 20, some 30, some 20, some 30, true, some 1, some 500⟩] ∧
    (⟨"h2", "held", "j", "c", some 20, some 30, some 20, some 30, true, some 1, some 500⟩ :
        TimeBlock).jobId = "j" := by
  constructor
  · rfl
  · rfl

/-- C7 (amended): the cancel-hold / client-rematch flows delete exactly
the single TimeBlock whose document id equals the job's stored `holdId`
(the first-created hold); every other TimeBlock — including further
occurrence blocks of a recurring engagement with the same jobId —
remains. -/
theorem claim_C7_amended (blocks : List TimeBlock) (providerUid holdId : String)
    (hp : providerUid ≠ "") (hh : holdId ≠ "") :
    (∀ b ∈ cancelHoldBlocks blocks providerUid holdId, b.id ≠ holdId) ∧
    (∀ b ∈ blocks, b.id ≠ holdId → b ∈ cancelHoldBlocks blocks providerUid holdId) := by
  have hcond : (providerUid != "" && holdId != "") = true := by
    simp [hp, hh]
  unfold cancelHoldBlocks
  rw [if_pos hcond]
  constructor
  · intro b hmem
    have := (List.mem_filter.mp hmem).2
    simpa using this
  · intro b hmem hne
    exact List.mem_filter.mpr ⟨hmem, by simpa using hne⟩

theorem claim_C7_amended_witness :
    (⟨"h2", "held", "j", "c", some 20, some 30, some 20, some 30, true, some 1, some 500⟩ :
        TimeBlock) ∈
      cancelHoldBlocks
        [⟨"h1", "held", "j", "c", some 0, some 10, some 0, some 10, true, some 0, some 500⟩,
         ⟨"h2", "held", "j", "c", some 20, some 30, some 20, some 30, true, some 1, some 500⟩]
        "p" "h1" :=
  (claim_C7_amended _ "p" "h1" (by decide) (by decide)).2
    ⟨"h2", "held", "j", "c", some 20, some 30, some 20, some 30, true, some 1, some 500⟩
    (by decide) (by decide)

/-- C9: an engagement in the lead-time window that the scanner considers
(recurring, not yet reminded, not cancelled/terminated) whose
`scheduledDate` equals the series' original start instant gets NO
notification and is marked permanently handled (`reminder48hSent` with
the first-occurrence skip reason), and a later run of the scanner sends
it no notification either. -/
theorem claim_C9_reminder_skips_first (job : RJob) (now t : Int)
    (hwin : inReminderWindow now job = true)
    (hrec : reminderIsRecurring job = true)
    (hsent : job.reminder48hSent = false)
    (hcancel : cancelishStatus job.status = false)
    (hsched : job.scheduledDate = some t) (hstart : job.recStartAt = some t) :
    (processReminder job).1 = [] ∧
    (processReminder job).2 = markSkipFirst job ∧
    (markSkipFirst job).reminder48hSent = true ∧
    (markSkipFirst job).reminder48hSkipReason = some "first_job_of_recurrence" ∧
    (processReminder (markSkipFirst job)).1 = [] := by
  have hbody : processReminder job = ([], markSkipFirst job) := by
    unfold processReminder
    rw [hrec, hsent, hcancel, hsched, hstart]
    simp
  have hrec2 : reminderIsRecurring (markSkipFirst job) = true := by
    have : reminderIsRecurring (markSkipFirst job) = reminderIsRecurring job := rfl
    rw [this, hrec]
  have hbody2 : (processReminder (markSkipFirst job)).1 = [] := by
    unfold processReminder
    rw [hrec2]
    have : (markSkipFirst job).reminder48hSent = true := rfl
    rw [this]
    rfl
  rw [hbody]
  exact ⟨rfl, rfl, rfl, rfl, hbody2⟩

theorem listMapIdOf {α : Type} (l : List α) (f : α → α) (h : ∀ x ∈ l, f x = x) :
    l.map f = l := by
  induction l with
  | nil => rfl
  | cons x xs ih =>
    rw [List.map_cons, h x (List.mem_cons_self x xs),
      ih (fun y hy => h y (List.mem_cons_of_mem x hy))]

theorem findSomeAppend {α : Type} {l1 l2 : List α} {p : α → Bool} {a : α}
    (h : l1.find? p = some a) : (l1 ++ l2).find? p = some a := by
  induction l1 with
  | nil => simp [List.find?] at h
  | cons x xs ih =>
    rw [List.cons_append]
    rw [List.find?_cons] at h ⊢
    cases hp : p x with
    | true => rw [hp] at h; simpa [hp] using h
    | false => rw [hp] at h; simpa [hp] using ih h

theorem findMapSame (g : GJob → GJob) (hg : ∀ x, (g x).id = x.id)
    (store : List GJob) (rootId : String) :
    (store.map g).find? (fun x => x.id == rootId)
      = (store.find? (fun x => x.id == rootId)).map g := by
  induction store with
  | nil => rfl
  | cons x xs ih =>
    rw [List.map_cons, List.find?_cons, List.find?_cons]
    have hgx : ((g x).id == rootId) = (x.id == rootId) := by rw [hg]
    cases hp : (x.id == rootId) with
    | true => rw [hgx, hp]; rfl
    | false => rw [hgx, hp]; exact ih

theorem backfillRoot_pres (x : GJob) (sid : String) :
    (backfillRoot x sid).id = x.id ∧ (backfillRoot x sid).status = x.status ∧
    (backfillRoot x sid).requestType = x.requestType ∧
    (backfillRoot x sid).parentRecurringId = x.parentRecurringId ∧
    (backfillRoot x sid).isRecurringOccurrence = x.isRecurringOccurrence ∧
    (backfillRoot x sid).recurrence = x.recurrence ∧
    (backfillRoot x sid).scheduledStart = x.scheduledStart := by
  unfold backfillRoot
  split
  · exact ⟨rfl, rfl, rfl, rfl, rfl, rfl, rfl⟩
  · split
    · exact ⟨rfl, rfl, rfl, rfl, rfl, rfl, rfl⟩
    · exact ⟨rfl, rfl, rfl, rfl, rfl, rfl, rfl⟩

/-- Under a well-formed store (trimmed, nonempty ids and trimmed series
ids) the derived series id is itself trimmed and nonempty. -/
theorem deriveSeriesId_wf {j : GJob} (hid : jsTrim j.id = j.id) (hne : j.id ≠ "")
    (hs : ∀ s, j.recurrenceSeriesId = some s → jsTrim s = s) :
    jsTrim (deriveSeriesId j) = deriveSeriesId j ∧ deriveSeriesId j ≠ "" := by
  unfold deriveSeriesId
  cases hrs : j.recurrenceSeriesId with
  | none =>
    simp only [Option.getD_some, Option.getD_none, hid]
    rw [if_neg (by simpa using hne)]
    exact ⟨hid, hne⟩
  | some s =>
    have hts := hs s hrs
    simp only [Option.getD_some, hts]
    by_cases hse : s = ""
    · rw [if_pos (by simpa using hse)]
      exact ⟨hid, hne⟩
    · rw [if_neg (by simpa using hse)]
      exact ⟨hts, hse⟩

/-- After the backfill the root always carries the derived series id. -/
theorem backfillRoot_seriesId {j : GJob} (hid : jsTrim j.id = j.id) (hne : j.id ≠ "")
    (hs : ∀ s, j.recurrenceSeriesId = some s → jsTrim s = s) :
    (backfillRoot j (deriveSeriesId j)).recurrenceSeriesId = some (deriveSeriesId j) := by
  unfold backfillRoot
  by_cases hc : rootBackfillCond1 j (deriveSeriesId j) = true
  · rw [if_pos hc]
  · rw [if_neg hc]
    unfold rootBackfillCond1 at hc
    rw [Bool.or_eq_true, not_or] at hc
    obtain ⟨hc1, hc2⟩ := hc
    cases hrs : j.recurrenceSeriesId with
    | none => rw [hrs] at hc1; simp at hc1
    | some s =>
      rw [hrs] at hc1 hc2
      have hse : s ≠ "" := by simpa using hc1
      have hts : jsTrim s = deriveSeriesId j := by
        simpa using hc2
      have heq : s = deriveSeriesId j := by rw [← hts, hs s hrs]
      split
      · show some s = some (deriveSeriesId j)
        rw [heq]
      · rw [hrs, heq]

/-- After the backfill the root's index is a finite number (some value),
and it is 0 unless the root already carried a finite index. -/
theorem backfillRoot_index (j : GJob) (sid : String) :
    (backfillRoot j sid).recurrenceIndex = some 0 ∨
    ((backfillRoot j sid).recurrenceIndex = j.recurrenceIndex ∧ j.recurrenceIndex.isSome) := by
  unfold backfillRoot
  split
  · exact Or.inl rfl
  · split
    · exact Or.inl rfl
    · rename_i hnone
      refine Or.inr ⟨rfl, ?_⟩
      cases h : j.recurrenceIndex with
      | none => rw [h] at hnone; simp at hnone
      | some m => rfl

/-- Backfilling an already-backfilled root is the identity. -/
theorem backfillRoot_idem {j' : GJob} {sid : String}
    (hsid : j'.recurrenceSeriesId = some sid) (htrim : jsTrim sid = sid)
    (hne : sid ≠ "") (hidx : j'.recurrenceIndex.isSome) :
    backfillRoot j' sid = j' := by
  have hc1 : rootBackfillCond1 j' sid = false := by
    unfold rootBackfillCond1
    rw [hsid]
    simp [htrim, hne]
  unfold backfillRoot
  rw [hc1]
  simp only [Bool.false_eq_true, if_false]
  rw [if_neg (by
    cases h : j'.recurrenceIndex with
    | none => rw [h] at hidx; simp at hidx
    | some m => simp)]

theorem isOccurrenceDoc_backfill {j : GJob} (sid : String)
    (h : isOccurrenceDoc j = false) : isOccurrenceDoc (backfillRoot j sid) = false := by
  obtain ⟨-, -, hrt, hpr, hro, -, -⟩ := backfillRoot_pres j sid
  unfold isOccurrenceDoc at h ⊢
  rw [hrt, hpr, hro]
  simp only [Bool.or_eq_false_iff] at h ⊢
  obtain ⟨⟨⟨h1, h2⟩, h3⟩, h4⟩ := h
  refine ⟨⟨⟨h1, h2⟩, ?_⟩, h4⟩
  rcases backfillRoot_index j sid with hi | ⟨hi, -⟩
  · rw [hi]
    simp
  · rw [hi]
    exact h3

theorem rootStartAt_backfill (j : GJob) (sid : String) :
    rootStartAt (backfillRoot j sid) = rootStartAt j := by
  obtain ⟨-, -, -, -, -, hrec, hss⟩ := backfillRoot_pres j sid
  unfold rootStartAt getRecurrence
  rw [hrec, hss]

theorem rootDates_backfill (j : GJob) (sid : String) (startAt : CalDate) :
    rootDates (backfillRoot j sid) startAt = rootDates j startAt := by
  obtain ⟨-, -, -, -, -, hrec, -⟩ := backfillRoot_pres j sid
  unfold rootDates getRecurrence
  rw [hrec]

theorem deriveSeriesId_of_some {x : GJob} {s : String}
    (hx : x.recurrenceSeriesId = some s) (htrim : jsTrim s = s) (hne : s ≠ "") :
    deriveSeriesId x = s := by
  unfold deriveSeriesId
  rw [hx]
  simp only [Option.getD_some]
  rw [htrim, if_neg (by simpa using hne)]

theorem deriveSeriesId_backfill {j : GJob} (hid : jsTrim j.id = j.id)
    (hne : j.id ≠ "") (hs : ∀ s, j.recurrenceSeriesId = some s → jsTrim s = s) :
    deriveSeriesId (backfillRoot j (deriveSeriesId j)) = deriveSeriesId j := by
  obtain ⟨htrim, hsne⟩ := deriveSeriesId_wf hid hne hs
  exact deriveSeriesId_of_some (backfillRoot_seriesId hid hne hs) htrim hsne

theorem mem_existingIndices_intro {store : List GJob} {sid : String} {x : GJob}
    {i : Int} (hx : x ∈ store) (hs : x.recurrenceSeriesId = some sid)
    (hi : x.recurrenceIndex = some i) (h0 : 0 ≤ i) :
    i ∈ existingIndices store sid := by
  unfold existingIndices
  refine List.mem_filterMap.mpr
    ⟨x, List.mem_filter.mpr ⟨hx, by rw [hs]; exact beq_self_eq_true _⟩, ?_⟩
  rw [hi]
  simp only [Option.getD_some]
  rw [if_pos h0]

theorem mem_existingIndices_elim {store : List GJob} {sid : String} {i : Int}
    (h : i ∈ existingIndices store sid) :
    ∃ x ∈ store, x.recurrenceSeriesId = some sid ∧ x.recurrenceIndex = some i ∧ 0 ≤ i := by
  unfold existingIndices at h
  obtain ⟨x, hxf, hxi⟩ := List.mem_filterMap.mp h
  obtain ⟨hxs, hbeq⟩ := List.mem_filter.mp hxf
  by_cases h0 : 0 ≤ x.recurrenceIndex.getD (-1)
  · rw [if_pos h0] at hxi
    injection hxi with hxi
    cases hm : x.recurrenceIndex with
    | none =>
      rw [hm] at h0
      simp only [Option.getD_none] at h0
      omega
    | some m =>
      rw [hm] at hxi h0
      simp only [Option.getD_some] at hxi h0
      refine ⟨x, hxs, beq_iff_eq.mp hbeq, ?_, ?_⟩
      · rw [hm, hxi]
      · omega
  · rw [if_neg h0] at hxi
    cases hxi

theorem mem_createdChildren_elim {store : List GJob} {j : GJob} {sid : String}
    {dates : List Int} {newIds : Nat → String} {c : GJob}
    (h : c ∈ createdChildren store j sid dates newIds) :
    ∃ idx : Nat, idx < dates.length ∧ 1 ≤ idx ∧
      ¬ (existingIndices store sid).contains (idx : Int) = true ∧
      c = mkChild j sid idx (dates.getD idx 0) (newIds idx) := by
  unfold createdChildren at h
  obtain ⟨idx, hidx, hsome⟩ := List.mem_filterMap.mp h
  by_cases hcond : 1 ≤ idx ∧ ¬ (existingIndices store sid).contains (idx : Int) = true
  · rw [if_pos hcond] at hsome
    injection hsome with hsome
    exact ⟨idx, List.mem_range.mp hidx, hcond.1, hcond.2, hsome.symm⟩
  · rw [if_neg hcond] at hsome
    cases hsome

theorem mem_createdChildren_intro {store : List GJob} {j : GJob} {sid : String}
    {dates : List Int} {newIds : Nat → String} {idx : Nat}
    (hlen : idx < dates.length) (h1 : 1 ≤ idx)
    (hnc : ¬ (existingIndices store sid).contains (idx : Int) = true) :
    mkChild j sid idx (dates.getD idx 0) (newIds idx)
      ∈ createdChildren store j sid dates newIds := by
  unfold createdChildren
  exact List.mem_filterMap.mpr
    ⟨idx, List.mem_range.mpr hlen, by rw [if_pos ⟨h1, hnc⟩]⟩

/-- The generator's per-root body in the main (generating) case. -/
theorem processRoot_main {store : List GJob} {j : GJob} {startAt : CalDate}
    (f : Nat → String) (hocc : isOccurrenceDoc j = false)
    (hst : (normStatus j.status == "accepted") = true)
    (hsa : rootStartAt j = some startAt) :
    processRoot store j f
      = updStore store j.id (deriveSeriesId j) ++
          createdChildren store j (deriveSeriesId j) (rootDates j startAt) f := by
  unfold processRoot
  rw [if_neg (by rw [hocc]; simp), if_neg (by rw [hst]; simp), hsa]

/-- Idempotence of the Series Generator run over one root: the second
run finds every index 1..count-1 already present and the root linkage
already backfilled, so it changes nothing. -/
theorem gen_idem (store : List GJob) (rootId : String) (f1 f2 : Nat → String)
    (huniq : ∀ x ∈ store, ∀ y ∈ store, x.id = y.id → x = y)
    (hwf : ∀ x ∈ store, jsTrim x.id = x.id ∧ x.id ≠ "" ∧
        ∀ s, x.recurrenceSeriesId = some s → jsTrim s = s)
    (hfresh : ∀ n : Nat, ∀ x ∈ store, f1 n ≠ x.id) :
    runGeneratorOn (runGeneratorOn store rootId f1) rootId f2
      = runGeneratorOn store rootId f1 := by
  cases hfind : store.find? (fun x => x.id == rootId) with
  | none =>
    have h1 : runGeneratorOn store rootId f1 = store := by
      unfold runGeneratorOn; rw [hfind]
    rw [h1]
    unfold runGeneratorOn
    rw [hfind]
  | some j =>
    have hmem : j ∈ store := List.mem_of_find?_eq_some hfind
    have h1 : runGeneratorOn store rootId f1 = processRoot store j f1 := by
      unfold runGeneratorOn; rw [hfind]
    by_cases hocc : isOccurrenceDoc j = true
    · have hp : ∀ f, processRoot store j f = store := by
        intro f; unfold processRoot; rw [if_pos hocc]
      rw [h1, hp f1]
      unfold runGeneratorOn
      rw [hfind]
      exact hp f2
    · have hoccf : isOccurrenceDoc j = false := by
        revert hocc; cases isOccurrenceDoc j <;> simp
      by_cases hst : (normStatus j.status == "accepted") = true
      · cases hsa : rootStartAt j with
        | none =>
          have hp : ∀ f, processRoot store j f = store := by
            intro f
            unfold processRoot
            rw [if_neg (by rw [hoccf]; simp), if_neg (by rw [hst]; simp), hsa]
          rw [h1, hp f1]
          unfold runGeneratorOn
          rw [hfind]
          exact hp f2
        | some startAt =>
          obtain ⟨hidt, hidne, hsertrim⟩ := hwf j hmem
          obtain ⟨htrim, hne⟩ := deriveSeriesId_wf hidt hidne hsertrim
          have hj'sid := backfillRoot_seriesId hidt hidne hsertrim
          have hj'idx : (backfillRoot j (deriveSeriesId j)).recurrenceIndex.isSome := by
            rcases backfillRoot_index j (deriveSeriesId j) with hi | ⟨-, hi⟩
            · rw [hi]; rfl
            · rcases Option.isSome_iff_exists.mp hi with ⟨m, hm⟩
              rcases backfillRoot_index j (deriveSeriesId j) with hi2 | ⟨hi2, -⟩
              · rw [hi2]; rfl
              · rw [hi2, hm]; rfl
          have hj'id : (backfillRoot j (deriveSeriesId j)).id = j.id :=
            (backfillRoot_pres j (deriveSeriesId j)).1
          have hg : ∀ x : GJob,
              ((if x.id == j.id then backfillRoot x (deriveSeriesId j) else x)).id = x.id := by
            intro x
            by_cases hx : (x.id == j.id) = true
            · rw [if_pos hx]; exact (backfillRoot_pres x (deriveSeriesId j)).1
            · rw [if_neg hx]
          have hmain := @processRoot_main store j startAt f1 hoccf hst hsa
          -- contents of the first run
          rw [h1, hmain]
          -- the second run finds the backfilled root
          have hfind2 : (updStore store j.id (deriveSeriesId j) ++
                createdChildren store j (deriveSeriesId j) (rootDates j startAt) f1).find?
              (fun x => x.id == rootId) = some (backfillRoot j (deriveSeriesId j)) := by
            apply findSomeAppend
            unfold updStore
            rw [findMapSame _ hg store rootId, hfind]
            show some (if (j.id == j.id) then backfillRoot j (deriveSeriesId j) else j) = _
            rw [if_pos (beq_self_eq_true j.id)]
          unfold runGeneratorOn
          rw [hfind2]
          show processRoot
              (updStore store j.id (deriveSeriesId j) ++
                createdChildren store j (deriveSeriesId j) (rootDates j startAt) f1)
              (backfillRoot j (deriveSeriesId j)) f2
            = updStore store j.id (deriveSeriesId j) ++
                createdChildren store j (deriveSeriesId j) (rootDates j startAt) f1
          -- the second run takes the same main path
          have hocc2 : isOccurrenceDoc (backfillRoot j (deriveSeriesId j)) = false :=
            isOccurrenceDoc_backfill _ hoccf
          have hst2 : (normStatus (backfillRoot j (deriveSeriesId j)).status == "accepted") = true := by
            rw [(backfillRoot_pres j (deriveSeriesId j)).2.1]
            exact hst
          have hsa2 : rootStartAt (backfillRoot j (deriveSeriesId j)) = some startAt := by
            rw [rootStartAt_backfill, hsa]
          rw [processRoot_main f2 hocc2 hst2 hsa2,
            deriveSeriesId_backfill hidt hidne hsertrim,
            rootDates_backfill, hj'id]
          -- the backfill write of the second run is the identity
          have hupd2 : updStore (updStore store j.id (deriveSeriesId j) ++
                createdChildren store j (deriveSeriesId j) (rootDates j startAt) f1)
                j.id (deriveSeriesId j)
              = updStore store j.id (deriveSeriesId j) ++
                createdChildren store j (deriveSeriesId j) (rootDates j startAt) f1 := by
            unfold updStore
            apply listMapIdOf
            intro x hx
            rcases List.mem_append.mp hx with hxl | hxr
            · obtain ⟨y, hy, hgy⟩ := List.mem_map.mp hxl
              by_cases hyid : (y.id == j.id) = true
              · have hyj : y = j := huniq y hy j hmem (beq_iff_eq.mp hyid)
                subst hyj
                rw [if_pos (beq_self_eq_true y.id)] at hgy
                subst hgy
                rw [if_pos (by rw [hj'id]; exact beq_self_eq_true _)]
                exact backfillRoot_idem hj'sid htrim hne hj'idx
              · rw [if_neg hyid] at hgy
                subst hgy
                rw [if_neg hyid]
            · obtain ⟨idx, -, -, -, hc⟩ := mem_createdChildren_elim hxr
              have hxid : x.id = f1 idx := by rw [hc]; rfl
              rw [if_neg (by
                rw [hxid]
                simpa using hfresh idx j hmem)]
          rw [hupd2]
          -- the second run creates nothing
          have hchild2 : createdChildren (updStore store j.id (deriveSeriesId j) ++
                createdChildren store j (deriveSeriesId j) (rootDates j startAt) f1)
                (backfillRoot j (deriveSeriesId j)) (deriveSeriesId j)
                (rootDates j startAt) f2 = [] := by
            unfold createdChildren
            rw [List.filterMap_eq_nil_iff]
            intro idx hidx
            rw [if_neg]
            intro ⟨h1idx, hnc⟩
            apply hnc
            apply List.elem_iff.mpr
            by_cases hex : ((idx : Int)) ∈ existingIndices store (deriveSeriesId j)
            · obtain ⟨x, hxmem, hxs, hxi, hx0⟩ := mem_existingIndices_elim hex
              by_cases hxid : x.id = j.id
              · exfalso
                have hxj : x = j := huniq x hxmem j hmem hxid
                subst hxj
                unfold isOccurrenceDoc at hoccf
                simp only [Bool.or_eq_false_iff] at hoccf
                have h3 := hoccf.1.2
                rw [hxi] at h3
                simp only [Option.getD_some, decide_eq_false_iff_not, Int.not_lt] at h3
                omega
              · refine mem_existingIndices_intro (List.mem_append_left _
                  (List.mem_map.mpr ⟨x, hxmem, ?_⟩)) hxs hxi hx0
                rw [if_neg (by simpa using hxid)]
            · have hnc1 : ¬ (existingIndices store (deriveSeriesId j)).contains
                  (idx : Int) = true := by
                intro hc
                exact hex (List.elem_iff.mp hc)
              have hchild := @mem_createdChildren_intro store j (deriveSeriesId j)
                (rootDates j startAt) f1 idx (List.mem_range.mp hidx) h1idx hnc1
              exact mem_existingIndices_intro (List.mem_append_right _ hchild) rfl rfl
                (by omega)
          rw [hchild2, List.append_nil]
      · have hstf : (normStatus j.status == "accepted") = false := by
          revert hst; cases (normStatus j.status == "accepted") <;> simp
        have hp : ∀ f, processRoot store j f = store := by
          intro f
          unfold processRoot
          rw [if_neg (by rw [hoccf]; simp), if_pos (by rw [hstf]; simp)]
        rw [h1, hp f1]
        unfold runGeneratorOn
        rw [hfind]
        exact hp f2

theorem pairOf_elim {x : GJob} {s : String} {i : Int}
    (h : pairOf x = some (s, i)) :
    x.recurrenceSeriesId = some s ∧ x.recurrenceIndex = some i := by
  unfold pairOf at h
  cases hs : x.recurrenceSeriesId with
  | none => rw [hs] at h; cases h
  | some s' =>
    cases hi : x.recurrenceIndex with
    | none => rw [hs, hi] at h; cases h
    | some i' =>
      rw [hs, hi] at h
      injection h with h
      injection h with h1 h2
      rw [h1, h2]
      exact ⟨rfl, rfl⟩

theorem pairOf_intro {x : GJob} {s : String} {i : Int}
    (hs : x.recurrenceSeriesId = some s) (hi : x.recurrenceIndex = some i) :
    pairOf x = some (s, i) := by
  unfold pairOf
  rw [hs, hi]

/-- A document passing the root filter has a non-positive index in its
pair. -/
theorem pairOf_root_le {j : GJob} (hocc : isOccurrenceDoc j = false)
    {s : String} {i : Int} (h : pairOf j = some (s, i)) : i ≤ 0 := by
  obtain ⟨-, hi⟩ := pairOf_elim h
  unfold isOccurrenceDoc at hocc
  simp only [Bool.or_eq_false_iff] at hocc
  have h3 := hocc.1.2
  rw [hi] at h3
  simp only [Option.getD_some, decide_eq_false_iff_not, Int.not_lt] at h3
  exact h3

/-- The backfill either leaves the root unchanged or gives it the pair
`(seriesId, 0)`. -/
theorem backfillRoot_cases {j : GJob} (hid : jsTrim j.id = j.id) (hne : j.id ≠ "")
    (hs : ∀ s, j.recurrenceSeriesId = some s → jsTrim s = s) :
    backfillRoot j (deriveSeriesId j) = j ∨
    pairOf (backfillRoot j (deriveSeriesId j)) = some (deriveSeriesId j, 0) := by
  have hsid := backfillRoot_seriesId hid hne hs
  by_cases hc1 : rootBackfillCond1 j (deriveSeriesId j) = true
  · right
    refine pairOf_intro hsid ?_
    unfold backfillRoot
    rw [if_pos hc1]
  · by_cases hc2 : j.recurrenceIndex.isNone = true
    · right
      refine pairOf_intro hsid ?_
      unfold backfillRoot
      rw [if_neg hc1, if_pos hc2]
    · left
      unfold backfillRoot
      rw [if_neg hc1, if_neg hc2]

/-- Freshly generated children are placed in the series with their own
index: their pair is `(seriesId, idx)`. -/
theorem pairOf_mkChild (j : GJob) (sid : String) (idx : Nat) (dateMs : Int)
    (newId : String) : pairOf (mkChild j sid idx dateMs newId) = some (sid, (idx : Int)) := rfl

/-- The Series Generator never produces a duplicate
`(recurrenceSeriesId, recurrenceIndex)` pair: if the store has distinct
document ids, pairwise-distinct pairs, and no document other than the
root already carries the pair `(seriesId, 0)`, the store after one run
still has pairwise-distinct pairs. -/
theorem gen_pairs (store : List GJob) (rootId : String) (f1 : Nat → String) (j : GJob)
    (hfind : store.find? (fun x => x.id == rootId) = some j)
    (huniq : ∀ x ∈ store, ∀ y ∈ store, x.id = y.id → x = y)
    (hids : List.Pairwise (fun a b : GJob => a.id ≠ b.id) store)
    (hwf : ∀ x ∈ store, jsTrim x.id = x.id ∧ x.id ≠ "" ∧
        ∀ s, x.recurrenceSeriesId = some s → jsTrim s = s)
    (hnodup : (seriesPairs store).Nodup)
    (hzero : ∀ x ∈ store, x ≠ j →
        ¬(x.recurrenceSeriesId = some (deriveSeriesId j) ∧ x.recurrenceIndex = some 0)) :
    (seriesPairs (runGeneratorOn store rootId f1)).Nodup := by
  have hmem := List.mem_of_find?_eq_some hfind
  obtain ⟨hidt, hidne, hsertrim⟩ := hwf j hmem
  have hrun : runGeneratorOn store rootId f1 = processRoot store j f1 := by
    unfold runGeneratorOn; rw [hfind]
  rw [hrun]
  by_cases hocc : isOccurrenceDoc j = true
  · unfold processRoot
    rw [if_pos hocc]
    exact hnodup
  have hoccf : isOccurrenceDoc j = false := by
    revert hocc; cases isOccurrenceDoc j <;> simp
  by_cases hst : (normStatus j.status == "accepted") = true
  · cases hsa : rootStartAt j with
    | none =>
      unfold processRoot
      rw [if_neg (by rw [hoccf]; simp), if_neg (by rw [hst]; simp), hsa]
      exact hnodup
    | some startAt =>
      rw [processRoot_main f1 hoccf hst hsa]
      have hP : List.Pairwise
          (fun a b : GJob => ∀ p ∈ pairOf a, ∀ q ∈ pairOf b, p ≠ q) store := by
        have h0 : List.Pairwise (· ≠ ·) (List.filterMap pairOf store) := hnodup
        exact List.pairwise_filterMap.mp h0
      have hPall : List.Pairwise
          (fun a b : GJob => (∀ p ∈ pairOf a, ∀ q ∈ pairOf b, p ≠ q) ∧ a.id ≠ b.id)
          store := hP.and hids
      have hchild_pair : ∀ c ∈ createdChildren store j (deriveSeriesId j)
            (rootDates j startAt) f1,
          ∃ idxc : Nat, 1 ≤ idxc ∧
            ¬ ((idxc : Int)) ∈ existingIndices store (deriveSeriesId j) ∧
            pairOf c = some (deriveSeriesId j, (idxc : Int)) := by
        intro c hc
        obtain ⟨idxc, -, h1c, hnc, hceq⟩ := mem_createdChildren_elim hc
        refine ⟨idxc, h1c, ?_, by rw [hceq]; exact pairOf_mkChild _ _ _ _ _⟩
        intro hmemx
        exact hnc (List.elem_iff.mpr hmemx)
      show List.Pairwise (· ≠ ·)
        (List.filterMap pairOf (updStore store j.id (deriveSeriesId j) ++
          createdChildren store j (deriveSeriesId j) (rootDates j startAt) f1))
      rw [List.pairwise_filterMap, List.pairwise_append]
      refine ⟨?_, ?_, ?_⟩
      · -- pairs within the backfilled store
        unfold updStore
        rw [List.pairwise_map]
        refine List.Pairwise.imp_of_mem ?_ hPall
        intro a b hma hmb hab
        obtain ⟨hQ, hne'⟩ := hab
        intro p hp q hq hpq
        obtain ⟨ps, pi⟩ := p
        obtain ⟨qs, qi⟩ := q
        rw [Prod.mk.injEq] at hpq
        obtain ⟨hpq1, hpq2⟩ := hpq
        subst hpq1
        subst hpq2
        by_cases haj : (a.id == j.id) = true
        · have haeq : a = j := huniq a hma j hmem (beq_iff_eq.mp haj)
          have hbj : ¬ (b.id == j.id) = true := by
            have hdiff : b.id ≠ j.id := by rw [← haeq]; exact fun hh => hne' hh.symm
            simpa using hdiff
          rw [if_pos haj, haeq] at hp
          rw [if_neg hbj] at hq
          rcases backfillRoot_cases hidt hidne hsertrim with hsame | hpair
          · rw [hsame] at hp
            have hpa : (ps, pi) ∈ pairOf a := by rw [haeq]; exact hp
            exact hQ (ps, pi) hpa (ps, pi) hq rfl
          · rw [hpair] at hp
            have hp' : ps = deriveSeriesId j ∧ pi = 0 := by
              simp only [Option.mem_def, Option.some_inj, Prod.mk.injEq] at hp
              exact ⟨hp.1.symm, hp.2.symm⟩
            obtain ⟨hbs, hbi⟩ := pairOf_elim (Option.mem_def.mp hq)
            have hbne : b ≠ j := by
              intro hh
              exact hne' (by rw [haeq, hh])
            exact hzero b hmb hbne ⟨by rw [hbs, hp'.1], by rw [hbi, hp'.2]⟩
        · rw [if_neg haj] at hp
          by_cases hbj : (b.id == j.id) = true
          · have hbeq : b = j := huniq b hmb j hmem (beq_iff_eq.mp hbj)
            rw [if_pos hbj, hbeq] at hq
            rcases backfillRoot_cases hidt hidne hsertrim with hsame | hpair
            · rw [hsame] at hq
              have hqb : (ps, pi) ∈ pairOf b := by rw [hbeq]; exact hq
              exact hQ (ps, pi) hp (ps, pi) hqb rfl
            · rw [hpair] at hq
              have hq' : ps = deriveSeriesId j ∧ pi = 0 := by
                simp only [Option.mem_def, Option.some_inj, Prod.mk.injEq] at hq
                exact ⟨hq.1.symm, hq.2.symm⟩
              obtain ⟨has, hai⟩ := pairOf_elim (Option.mem_def.mp hp)
              have hane : a ≠ j := by
                intro hh
                exact absurd (by rw [hh]; exact beq_self_eq_true _) haj
              exact hzero a hma hane ⟨by rw [has, hq'.1], by rw [hai, hq'.2]⟩
          · rw [if_neg hbj] at hq
            exact hQ (ps, pi) hp (ps, pi) hq rfl
      · -- pairs among the created children: distinct indices
        unfold createdChildren
        rw [List.pairwise_filterMap]
        refine List.Pairwise.imp_of_mem ?_ (List.pairwise_lt_range _)
        intro i1 i2 hm1 hm2 hlt c1 hc1 c2 hc2 p hp q hq hpq
        by_cases hcond1 : 1 ≤ i1 ∧
            ¬ (existingIndices store (deriveSeriesId j)).contains ((i1 : Int)) = true
        · rw [if_pos hcond1] at hc1
          have hc1' : c1 = mkChild j (deriveSeriesId j) i1
              ((rootDates j startAt).getD i1 0) (f1 i1) := by symm; simpa using hc1
          by_cases hcond2 : 1 ≤ i2 ∧
              ¬ (existingIndices store (deriveSeriesId j)).contains ((i2 : Int)) = true
          · rw [if_pos hcond2] at hc2
            have hc2' : c2 = mkChild j (deriveSeriesId j) i2
                ((rootDates j startAt).getD i2 0) (f1 i2) := by symm; simpa using hc2
            rw [hc1', pairOf_mkChild] at hp
            rw [hc2', pairOf_mkChild] at hq
            have hp' : p = (deriveSeriesId j, (i1 : Int)) := by symm; simpa using hp
            have hq' : q = (deriveSeriesId j, (i2 : Int)) := by symm; simpa using hq
            rw [hp', hq', Prod.mk.injEq] at hpq
            have : (i1 : Int) = (i2 : Int) := hpq.2
            omega
          · rw [if_neg hcond2] at hc2
            simp at hc2
        · rw [if_neg hcond1] at hc1
          simp at hc1
      · -- cross: a backfilled document never collides with a new child
        intro a hma c hc p hp q hq hpq
        obtain ⟨idxc, h1c, hncm, hcp⟩ := hchild_pair c hc
        have hq' : q = (deriveSeriesId j, (idxc : Int)) := by
          rw [hcp] at hq
          symm
          simpa using hq
        have hidxc1 : (1 : Int) ≤ (idxc : Int) := by exact_mod_cast h1c
        obtain ⟨x, hx, hgx⟩ := List.mem_map.mp hma
        rw [← hgx] at hp
        by_cases hxj : (x.id == j.id) = true
        · have hxeq : x = j := huniq x hx j hmem (beq_iff_eq.mp hxj)
          rw [if_pos hxj, hxeq] at hp
          rcases backfillRoot_cases hidt hidne hsertrim with hsame | hpair
          · rw [hsame] at hp
            obtain ⟨ps, pi⟩ := p
            have hle := pairOf_root_le hoccf (Option.mem_def.mp hp)
            rw [hq', Prod.mk.injEq] at hpq
            have : pi = (idxc : Int) := hpq.2
            omega
          · rw [hpair] at hp
            have hp' : p = (deriveSeriesId j, 0) := by symm; simpa using hp
            rw [hp', hq', Prod.mk.injEq] at hpq
            have : (0 : Int) = (idxc : Int) := hpq.2
            omega
        · rw [if_neg hxj] at hp
          obtain ⟨ps, pi⟩ := p
          obtain ⟨hxs, hxi⟩ := pairOf_elim (Option.mem_def.mp hp)
          rw [hq', Prod.mk.injEq] at hpq
          obtain ⟨hpq1, hpq2⟩ := hpq
          apply hncm
          refine mem_existingIndices_intro hx ?_ ?_ (by omega)
          · rw [hxs, hpq1]
          · rw [hxi, hpq2]
  · unfold processRoot
    rw [if_neg (by rw [hoccf]; simp),
      if_pos (by
        revert hst
        cases (normStatus j.status == "accepted") <;> simp)]
    exact hnodup

/-- C2: the Series Generator is idempotent — over a well-formed store
(unique, trimmed, nonempty document ids; trimmed series ids;
pairwise-distinct `(seriesId, index)` pairs; no foreign document with the
root's `(seriesId, 0)` pair; fresh ids for created documents) running the
generator twice over the same root yields exactly the store of one run,
the resulting store never holds two engagements with the same
`(recurrenceSeriesId, recurrenceIndex)` pair, and for a root with
`horizonCount = 6` where index 3 already exists one run creates exactly
indices 1, 2, 4 and 5. -/
theorem claim_C2_generator (store : List GJob) (rootId : String)
    (f1 f2 : Nat → String) (j : GJob)
    (hfind : store.find? (fun x => x.id == rootId) = some j)
    (huniq : ∀ x ∈ store, ∀ y ∈ store, x.id = y.id → x = y)
    (hids : List.Pairwise (fun a b : GJob => a.id ≠ b.id) store)
    (hwf : ∀ x ∈ store, jsTrim x.id = x.id ∧ x.id ≠ "" ∧
        ∀ s, x.recurrenceSeriesId = some s → jsTrim s = s)
    (hnodup : (seriesPairs store).Nodup)
    (hzero : ∀ x ∈ store, x ≠ j →
        ¬(x.recurrenceSeriesId = some (deriveSeriesId j) ∧ x.recurrenceIndex = some 0))
    (hfresh : ∀ n : Nat, ∀ x ∈ store, f1 n ≠ x.id) :
    runGeneratorOn (runGeneratorOn store rootId f1) rootId f2
        = runGeneratorOn store rootId f1 ∧
    (seriesPairs (runGeneratorOn store rootId f1)).Nodup ∧
    (runGeneratorOn genStore0 "r" genFresh0).map (fun x => x.recurrenceIndex)
        = [some 0, some 3, some 1, some 2, some 4, some 5] :=
  ⟨gen_idem store rootId f1 f2 huniq hwf hfresh,
    gen_pairs store rootId f1 j hfind huniq hids hwf hnodup hzero,
    by decide⟩

theorem claim_C2_witness :
    runGeneratorOn (runGeneratorOn genStore0 "r" genFresh0) "r" genFresh0
      = runGeneratorOn genStore0 "r" genFresh0 :=
  (claim_C2_generator genStore0 "r" genFresh0 genFresh0 genRoot0
    (by decide) (by decide) (by decide)
    (by
      intro x hx
      fin_cases hx
      · refine ⟨by decide, by decide, ?_⟩
        intro s hs
        injection hs with hs
        subst hs
        decide
      · refine ⟨by decide, by decide, ?_⟩
        intro s hs
        injection hs with hs
        subst hs
        decide)
    (by decide) (by decide)
    (by
      intro n x hx
      fin_cases hx <;> (show ("cx" : String) ≠ _; decide))).1

theorem claim_C9_witness :
    (processReminder ⟨"j1", true, true, "", false, none, "accepted",
        some 172800000, some 172800000, "cl", "pr"⟩).1 = [] ∧
    (processReminder ⟨"j1", true, true, "", false, none, "accepted",
        some 172800000, some 172800000, "cl", "pr"⟩).2.reminder48hSent = true := by
  have h := claim_C9_reminder_skips_first
    ⟨"j1", true, true, "", false, none, "accepted", some 172800000, some 172800000, "cl", "pr"⟩
    0 172800000 (by decide) (by decide) rfl (by decide) rfl rfl
  exact ⟨h.1, by rw [h.2.1]; rfl⟩

end Fixit
